import Mathlib

/-!
# Verification of the Coconut compiler core (`coconut/compiler.py`)

This file is a shallow embedding, in Lean 4, of the parts of the Coconut
source-to-source compiler that the specification's claims are about:

* the pipeline rewriter `pipe_handle`,
* the pattern-matching code generator (`matcher`, `match_handle`),
* the string/comment processor `str_proc` and its inverse `str_repl`,
* the passthrough processor `passthrough_proc` / `passthrough_repl`,
* the indentation processor `ind_proc`,
* line-number remapping `adjust` / `addskip`,
* the compose trailer in `item_handle`,
* the content hash `genhash` (zlib crc32),
* header synthesis `getheader` / `header_proc` and the `parse_exec` endpoint,
* the side table `add_ref` / `wrap_str` / `wrap_comment`.

Python strings are embedded as Lean `String`, Python lists as Lean `List`,
Python sets of line numbers as `Finset ℕ`, and fallible code returns
`Except CoconutErr`.  Every definition follows the Python source; doc
comments name the function embedded.
-/

namespace Coconut


/-- `openindent = "⁋"` from the source constants. -/
def openindent : Char := '⁋'

/-- `closeindent = "\xb6"` from the source constants. -/
def closeindent : Char := '¶'

/-- `strwrapper = "'"` from the source constants. -/
def strwrapper : Char := '\''

/-- `unwrapper = "⏹"` from the source constants. -/
def unwrapper : Char := '⏹'

/-- `white = " \t\f"` from the source constants. -/
def white : List Char := [' ', '\t', '\x0c']

/-- `downs = "(["` ++ `"{"` from the source constants (open brackets). -/
def downs : List Char := ['(', '[', '\x7b']

/-- `ups = ")]"` ++ `"}"` from the source constants (close brackets). -/
def ups : List Char := [')', ']', '\x7d']

/-- `holds = "'\""` from the source constants (quote characters). -/
def holds : List Char := ['\'', '"']

/-- `tabworth = 8` from the source constants. -/
def tabworth : Nat := 8

/-- `tablen = 4` from the source constants. -/
def tablen : Nat := 4

/-- `match_to_var` from the source constants. -/
def match_to_var : String := "_coconut_match_to"

/-- `match_check_var` from the source constants. -/
def match_check_var : String := "_coconut_match_check"

/-- `match_iter_var` from the source constants. -/
def match_iter_var : String := "_coconut_match_iter"

/-- `wildcard = "_"` from the source constants. -/
def wildcard : String := "_"

/-- `const_vars = ("True", "False", "None")` from the source constants. -/
def const_vars : List String := ["True", "False", "None"]

/-- Errors raised by the embedded compiler code; mirrors the exception
classes of the source at the granularity the claims need: an error kind,
a message, and (for syntax errors constructed with an explicit line) the
reported line number. -/
inductive CoconutErr where
  | exc (msg : String)
  | syntaxErr (msg : String) (ln : Option Nat)
  | styleErr (msg : String) (ln : Option Nat)
  deriving DecidableEq, Repr

/-! ## Pipeline rewriter (`pipe_handle`)

The Python handler receives the flat token list of a pipeline expression
(operands interleaved with operator strings) and repeatedly pops the last
operand and operator:

```python
def pipe_handle(tokens):
    if len(tokens) == 1:
        return tokens[0]
    else:
        func = tokens.pop()
        op = tokens.pop()
        if op == "|>": return "(" + func + ")(" + pipe_handle(tokens) + ")"
        elif op == "|*>": return "(" + func + ")(*" + pipe_handle(tokens) + ")"
        elif op == "<|": return "(" + pipe_handle(tokens) + ")(" + func + ")"
        elif op == "<*|": return "(" + pipe_handle(tokens) + ")(*" + func + ")"
        else: raise CoconutException("invalid pipe operator", op)
```

We embed it by structural recursion on the reversed token list (popping
from the end of a Python list is consuming the head of the reversed
list). -/

/-- `pipe_handle` on the reversed token list. -/
def pipe_handle_rev : List String → Except CoconutErr String
  | [x] => .ok x
  | func :: op :: rest => do
    if op = "|>" then
      return "(" ++ func ++ ")(" ++ (← pipe_handle_rev rest) ++ ")"
    else if op = "|*>" then
      return "(" ++ func ++ ")(*" ++ (← pipe_handle_rev rest) ++ ")"
    else if op = "<|" then
      return "(" ++ (← pipe_handle_rev rest) ++ ")(" ++ func ++ ")"
    else if op = "<*|" then
      return "(" ++ (← pipe_handle_rev rest) ++ ")(*" ++ func ++ ")"
    else
      throw (.exc ("invalid pipe operator: " ++ op))
  | [] => throw (.exc "invalid pipe tokens")

/-- Embedding of `pipe_handle` (see `pipe_handle_rev`): the Python
function pops tokens off the end of the list, which is recursion on the
reversed list. -/
def pipe_handle (tokens : List String) : Except CoconutErr String :=
  pipe_handle_rev tokens.reverse

/-! ## Side table (`add_ref`, `wrap_str`, `wrap_comment`, `wrap_passthrough`)

```python
def add_ref(self, ref):
    try:
        index = self.refs.index(ref)
    except ValueError:
        self.refs.append(ref)
        index = len(self.refs) - 1
    return str(index)
```

A ref is either a tuple `(text, strchar, multiline)` (strings) or a bare
Python string (comments *and* passthroughs share this shape, so a comment
and a passthrough with equal text compare equal under `==`, exactly as in
the source). -/

/-- A side-table reference: `tuple` mirrors the Python 3-tuple stored by
`wrap_str`; `plain` mirrors the bare string stored by both `wrap_comment`
and `wrap_passthrough`. -/
inductive Ref where
  | tuple (text : String) (strchar : Char) (multiline : Bool)
  | plain (text : String)
  deriving DecidableEq, Repr

/-- `list.index(ref)` — index of the first equal element (`None` when the
Python call would raise `ValueError`). -/
def pyIndex : List Ref → Ref → Option Nat
  | [], _ => none
  | x :: xs, r => if x = r then some 0 else (pyIndex xs r).map (· + 1)

/-- Embedding of `processor.add_ref`: returns the updated refs list and
the index (the source returns `str(index)`; we return the numeral and
render it where markers are built). -/
def add_ref (refs : List Ref) (r : Ref) : List Ref × Nat :=
  match pyIndex refs r with
  | some index => (refs, index)
  | none => (refs ++ [r], refs.length)

/-- Embedding of `processor.wrap_str`:
`strwrapper + self.add_ref((text, strchar, multiline)) + unwrapper`. -/
def wrap_str (refs : List Ref) (text : String) (strchar : Char)
    (multiline : Bool) : List Ref × String :=
  let (refs', i) := add_ref refs (.tuple text strchar multiline)
  (refs', strwrapper.toString ++ toString i ++ unwrapper.toString)

/-- Embedding of `processor.wrap_comment`:
`"#" + self.add_ref(text) + unwrapper`. -/
def wrap_comment (refs : List Ref) (text : String) : List Ref × String :=
  let (refs', i) := add_ref refs (.plain text)
  (refs', "#" ++ toString i ++ unwrapper.toString)

/-- Embedding of `processor.wrap_passthrough`: single-line passthroughs
are `lstrip`ped and wrapped as `"\\\\" + index + unwrapper + "\n"`,
multiline ones as `"\\" + index + unwrapper`. -/
def wrap_passthrough (refs : List Ref) (text : String) (multiline : Bool) :
    List Ref × String :=
  let text := if multiline then text else text.trimLeft
  let (refs', i) := add_ref refs (.plain text)
  let out := if multiline then "\\" else "\\\\"
  (refs', out ++ toString i ++ unwrapper.toString ++ (if multiline then "" else "\n"))

/-! ## Line-number remapping (`addskip`, `processor.adjust`)

```python
def addskip(skips, skip):
    if skip < 1:
        raise CoconutException("invalid skip of line " + str(skip))
    elif skip in skips:
        raise CoconutException("duplicate skip of line " + str(skip))
    else:
        skips.add(skip)
        return skips

def adjust(self, ln):
    adj_ln = 0
    i = 0
    while i < ln:
        adj_ln += 1
        if adj_ln not in self.skips:
            i += 1
    return adj_ln
```
-/

/-- Embedding of `addskip`. -/
def addskip (skips : Finset ℕ) (skip : ℕ) : Except CoconutErr (Finset ℕ) :=
  if skip < 1 then throw (.exc ("invalid skip of line " ++ toString skip))
  else if skip ∈ skips then throw (.exc ("duplicate skip of line " ++ toString skip))
  else .ok (insert skip skips)

/-- The `while` loop of `processor.adjust`: state `(adj, i)`; terminates
because `i` advances whenever `adj+1` has climbed past every skip. -/
def adjustGo (skips : Finset ℕ) (ln : ℕ) (adj i : ℕ) : ℕ :=
  if _h : i < ln then
    if (adj + 1) ∈ skips then adjustGo skips ln (adj + 1) i
    else adjustGo skips ln (adj + 1) (i + 1)
  else adj
termination_by (ln - i) + (skips.filter (fun s => adj < s)).card
decreasing_by
  · have hsub : skips.filter (fun s => adj + 1 < s) ⊂ skips.filter (fun s => adj < s) := by
      refine Finset.ssubset_iff_of_subset ?_ |>.mpr ?_
      · intro s hs
        simp only [Finset.mem_filter] at hs ⊢
        exact ⟨hs.1, by omega⟩
      · refine ⟨adj + 1, ?_, ?_⟩
        · simp only [Finset.mem_filter]
          exact ⟨by assumption, by omega⟩
        · simp
    have := Finset.card_lt_card hsub
    omega
  · have hsub : skips.filter (fun s => adj + 1 < s) ⊆ skips.filter (fun s => adj < s) := by
      intro s hs
      simp only [Finset.mem_filter] at hs ⊢
      exact ⟨hs.1, by omega⟩
    have := Finset.card_le_card hsub
    omega

/-- Embedding of `processor.adjust`. -/
def adjust (skips : Finset ℕ) (ln : ℕ) : ℕ :=
  adjustGo skips ln 0 0

/-! ## Trailers (`processor.item_handle`)

```python
def item_handle(self, original, location, tokens):
    out = tokens.pop(0)
    for trailer in tokens:
        if isinstance(trailer, str):
            out += trailer
        elif len(trailer) == 1:
            ...
        elif len(trailer) == 2:
            if trailer[0] == "$(":
                out = "__coconut__.functools.partial("+out+", "+trailer[1]+")"
            elif trailer[0] == "$[":
                ...
            elif trailer[0] == "..":
                out = "(lambda *args, **kwargs: "+out+"(("+trailer[1]+")(*args, **kwargs)))"
            ...
    return out
```

A trailer token is either a bare string (simple trailers, plain calls and
subscripts, already condensed by the grammar), a 1-element group, a
2-element group whose second element is a string (`$(`/`..`), or a
2-element group whose second element is the slice-argument group (`$[`).
-/

/-- Parse-result shape of one trailer token fed to `item_handle`. -/
inductive Trailer where
  | pys (txt : String)
  | one (sym : String)
  | two (sym : String) (arg : String)
  | twoSlice (args : List String)
  deriving DecidableEq, Repr

/-- Embedding of `processor.item_handle`'s loop body for one trailer. -/
def item_handle_step (out : String) : Trailer → Except CoconutErr String
  | .pys txt => .ok (out ++ txt)
  | .one sym =>
    if sym = "$[]" then
      .ok ("__coconut__.functools.partial(__coconut__.igetitem, " ++ out ++ ")")
    else if sym = "$" then
      .ok ("__coconut__.functools.partial(__coconut__.functools.partial, " ++ out ++ ")")
    else if sym = "[]" then
      .ok ("__coconut__.functools.partial(__coconut__.operator.__getitem__, " ++ out ++ ")")
    else if sym = "." then
      .ok ("__coconut__.functools.partial(__coconut__.getattr, " ++ out ++ ")")
    else if sym = "$(" then
      throw (.syntaxErr "a partial application argument is required" none)
    else
      throw (.exc ("invalid trailer symbol: " ++ sym))
  | .two sym arg =>
    if sym = "$(" then
      .ok ("__coconut__.functools.partial(" ++ out ++ ", " ++ arg ++ ")")
    else if sym = ".." then
      .ok ("(lambda *args, **kwargs: " ++ out ++ "((" ++ arg ++ ")(*args, **kwargs)))")
    else
      throw (.exc ("invalid special trailer: " ++ sym))
  | .twoSlice args =>
    if 0 < args.length ∧ args.length ≤ 3 then
      let args := args.map (fun a => if a = "" then "None" else a)
      match args with
      | [a] => .ok ("__coconut__.igetitem(" ++ out ++ ", " ++ a ++ ")")
      | _ => .ok ("__coconut__.igetitem(" ++ out ++ ", __coconut__.slice(" ++
          String.intercalate ", " args ++ "))")
    else
      throw (.exc "invalid iterator slice args")

/-- Embedding of `processor.item_handle`: fold the trailers over the head
atom. -/
def item_handle (head : String) (trailers : List Trailer) : Except CoconutErr String :=
  trailers.foldlM item_handle_step head

/-- The compiled body of `(f..g)(1)`: the inner `f..g` is an atom `f`
with the compose trailer `.. g` (`Group(dotdot + func_atom)`), the
parenthesized atom `(f..g)` is `condense(lparen + ... + rparen)`, and the
call `(1)` is a plain condensed trailer string. -/
def composeCallBody : Except CoconutErr String := do
  let inner ← item_handle "f" [.two ".." "g"]
  item_handle ("(" ++ inner ++ ")") [.pys "(1)"]

/-- `needle` occurs as contiguous text inside `hay`. -/
def containsText (hay needle : String) : Prop := needle.data <:+: hay.data

instance (hay needle : String) : Decidable (containsText hay needle) := by
  unfold containsText
  infer_instance

/-! ## Content hash (`processor.genhash`)

```python
from zlib import crc32 as checksum
hash_sep = "\x00"

def genhash(self, package, code):
    return hex(checksum(
            hash_sep.join(str(item) for item in
              (VERSION_STR, self.version, self.using_autopep8, package, code)
            ).encode(encoding)
        ) & 0xffffffff)
```

`zlib.crc32` is the standard CRC-32 (reflected polynomial `0xEDB88320`,
initial value and final xor `0xFFFFFFFF`), embedded bit-serially below.
`VERSION_STR` comes from `coconut/root.py` which is not under src/, so
the embedding takes it as a parameter. -/

/-- One bit-step of CRC-32. -/
def crc32round (crc : ℕ) : ℕ :=
  if crc % 2 = 1 then Nat.xor (crc / 2) 0xEDB88320 else crc / 2

/-- Fold one byte into the CRC state (xor into the low byte, then eight
bit-steps). -/
def crc32byte (crc b : ℕ) : ℕ :=
  crc32round (crc32round (crc32round (crc32round
    (crc32round (crc32round (crc32round (crc32round (Nat.xor crc b))))))))

/-- `zlib.crc32` over a byte list. -/
def crc32 (bytes : List ℕ) : ℕ :=
  Nat.xor (bytes.foldl crc32byte 0xFFFFFFFF) 0xFFFFFFFF

/-- UTF-8 encoding of one character (`str.encode("UTF-8")`). -/
def utf8Bytes (c : Char) : List ℕ :=
  let n := c.toNat
  if n < 0x80 then [n]
  else if n < 0x800 then [0xC0 + n / 0x40, 0x80 + n % 0x40]
  else if n < 0x10000 then
    [0xE0 + n / 0x1000, 0x80 + (n / 0x40) % 0x40, 0x80 + n % 0x40]
  else
    [0xF0 + n / 0x40000, 0x80 + (n / 0x1000) % 0x40,
     0x80 + (n / 0x40) % 0x40, 0x80 + n % 0x40]

/-- `s.encode("UTF-8")` as a byte list. -/
def encodeUTF8 (s : String) : List ℕ := (s.data.map utf8Bytes).flatten

/-- `hash_sep = "\x00"` from the source constants. -/
def hash_sep : String := "\x00"

/-- Python `str()` of the `version` field (`None`, `"2"` or `"3"`). -/
def pyStrVersion : Option String → String
  | none => "None"
  | some v => v

/-- Python `str()` of a boolean. -/
def pyStrBool : Bool → String
  | true => "True"
  | false => "False"

/-- Python `hex()` of a natural number. -/
def pyHex (n : ℕ) : String := "0x" ++ String.mk (Nat.toDigits 16 n)

/-- Embedding of `processor.genhash`.  The hash input is exactly
`(VERSION_STR, self.version, self.using_autopep8, package, code)` joined
by NUL — the processor's `strict` flag (and the newer flags the spec
names: minify, no_tco, no_wrap_types) are not part of it. -/
def genhash (version_str : String) (version : Option String)
    (using_autopep8 : Bool) (package : Bool) (code : String) : String :=
  pyHex (Nat.land (crc32 (encodeUTF8 (String.intercalate hash_sep
    [version_str, pyStrVersion version, pyStrBool using_autopep8,
     pyStrBool package, code]))) 0xffffffff)

/-! ## Pattern-matching code generator (`matcher`, `match_handle`)

The Python `matcher` keeps `checkdefs`, an indexed list of
`(checks, defs)` pairs; `self.checks`/`self.defs` alias the pair at
`self.position`.  `__init__` calls `increment()`, which pads `checkdefs`
to two entries (`checkdefs[0]` stays the unused placeholder) and sets
`position = 1`.  `out()` emits one nested `if`-block per nonempty level,
the flag assignment `_coconut_match_check = True` innermost, and one
CLOSE per opened block.

The `others` list and `duplicate()` are used only by `or`-patterns
(`match_or`), which no claim exercises; the embedded dispatch covers the
`const`, `var` and `series` families, for which `others` stays empty in
the source, so the `for other in self.others` suffixes of `out`,
`add_check` and `add_def` contribute nothing and are not modelled. -/

/-- Parse-result shape of a pattern for the embedded `matcher.match`
dispatch: `constP` is a `"const"` group, `varP` a `"var"` group, and
`seriesP` a `"series"` group `(series_type, match, [tail])`. -/
inductive Pat where
  | constP (c : String)
  | varP (n : String)
  | seriesP (series_type : String) (elems : List Pat) (tail : Option String)
  deriving Repr

/-- The `matcher` state: `checkdefs` with the current `position`
(`self.checks`/`self.defs` alias `checkdefs[position]`), the `names`
dict (insertion-ordered), and `iter_index`. -/
structure MatcherState where
  position : ℕ
  iter_index : ℕ
  checkdefs : List (List String × List String)
  names : List (String × String)
  deriving DecidableEq, Repr

/-- Python dict lookup in `self.names`. -/
def names_find (names : List (String × String)) (k : String) : Option String :=
  (names.find? (fun p => p.1 = k)).map (·.2)

/-- `self.checks.append(c)` — append a check at the current position. -/
def append_check (s : MatcherState) (c : String) : MatcherState :=
  let cur := s.checkdefs.getD s.position ([], [])
  { s with checkdefs := s.checkdefs.set s.position (cur.1 ++ [c], cur.2) }

/-- `self.defs.append(d)` — append a def at the current position. -/
def append_def (s : MatcherState) (d : String) : MatcherState :=
  let cur := s.checkdefs.getD s.position ([], [])
  { s with checkdefs := s.checkdefs.set s.position (cur.1, cur.2 ++ [d]) }

/-- `matcher.set_position`: pad `checkdefs` with empty `[[], []]` pairs
until the position is in range, then move there. -/
def set_position (s : MatcherState) (position : ℕ) : Except CoconutErr MatcherState :=
  if 0 < position then
    .ok { s with
      checkdefs := s.checkdefs ++
        List.replicate (position + 1 - s.checkdefs.length) ([], []),
      position := position }
  else
    throw (.exc ("invalid match index: " ++ toString position))

/-- `matcher()` — fresh matcher: empty `checkdefs` then `increment()`. -/
def matcher_init : MatcherState :=
  { position := 1, iter_index := 0, checkdefs := [([], []), ([], [])], names := [] }

mutual

/-- Embedding of `matcher.match` (the dispatch on the token's group name)
restricted to the `const`/`var`/`series` families; `match_sequence` is
inlined at the `seriesP` case. -/
def matchPat (s : MatcherState) : Pat → String → Except CoconutErr MatcherState
  | .constP c, item =>
    -- match_const
    if c ∈ const_vars then .ok (append_check s (item ++ " is " ++ c))
    else .ok (append_check s (item ++ " == " ++ c))
  | .varP setvar, item =>
    -- match_var
    if setvar = wildcard then .ok s
    else
      match names_find s.names setvar with
      | some prev => .ok (append_check s (prev ++ " == " ++ item))
      | none =>
        .ok { append_def s (setvar ++ " = " ++ item) with
              names := s.names ++ [(setvar, item)] }
  | .seriesP series_type elems tail, item => do
    -- match_sequence
    let s := append_check s
      ("__coconut__.isinstance(" ++ item ++ ", __coconut__.abc.Sequence)")
    let s ← match tail with
      | none =>
        .ok (append_check s ("__coconut__.len(" ++ item ++ ") == " ++ toString elems.length))
      | some t => do
        let s := append_check s
          ("__coconut__.len(" ++ item ++ ") >= " ++ toString elems.length)
        let splice := if elems.length ≠ 0 then "[" ++ toString elems.length ++ ":]" else ""
        if series_type = "(" then
          .ok (append_def s (t ++ " = __coconut__.tuple(" ++ item ++ splice ++ ")"))
        else if series_type = "[" then
          .ok (append_def s (t ++ " = __coconut__.list(" ++ item ++ splice ++ ")"))
        else
          throw (.exc ("invalid series match type: " ++ series_type))
    matchPats s elems item 0

/-- `for x in range(len(match)): self.match(match[x], item+"["+str(x)+"]")`. -/
def matchPats (s : MatcherState) : List Pat → String → ℕ → Except CoconutErr MatcherState
  | [], _, _ => .ok s
  | p :: ps, item, x => do
    let s ← matchPat s p (item ++ "[" ++ toString x ++ "]")
    matchPats s ps item (x + 1)

end

/-- Embedding of `matcher.out` (with `others` empty, see above): one
nested `if` per level with nonempty checks, defs under it, the flag
assignment innermost, one CLOSE per opened block. -/
def matcher_out (s : MatcherState) : String :=
  let folded := s.checkdefs.foldl (fun (acc : String × ℕ) cd =>
    let acc := if cd.1 ≠ [] then
        (acc.1 ++ "if (" ++ String.intercalate ") and (" cd.1 ++ "):\n" ++
          openindent.toString, acc.2 + 1)
      else acc
    if cd.2 ≠ [] then (acc.1 ++ String.intercalate "\n" cd.2 ++ "\n", acc.2)
    else acc) ("", 0)
  folded.1 ++ match_check_var ++ " = True\n" ++
    String.mk (List.replicate folded.2 closeindent)

/-- Embedding of `match_handle` (top-level `match ... in expr [if cond]:`
blocks).  `stmts` is the list of suite statement strings, `none` when the
caller omits it. -/
def match_handle (pat : Pat) (item : String) (cond : Option String)
    (stmts : Option (List String)) (top : Bool) : Except CoconutErr String := do
  let matching ← matchPat matcher_init pat match_to_var
  let matching ← match cond with
    | some c =>
      if c = "" then .ok matching
      else do
        -- matching.increment(True); matching.add_check(cond): others empty
        let m ← set_position matching (matching.position + 1)
        .ok (append_check m c)
    | none => .ok matching
  let out1 := if top then match_check_var ++ " = False\n" else ""
  let out2 := match_to_var ++ " = " ++ item ++ "\n"
  let out4 := match stmts with
    | some ss => "if " ++ match_check_var ++ ":\n" ++ openindent.toString ++
        String.join ss ++ closeindent.toString
    | none => ""
  .ok (out1 ++ out2 ++ matcher_out matching ++ out4)

/-- Semantics of the conditional structure `matcher_out` emits: the flag
assignment `_coconut_match_check = True` sits under every `if` block, so
given any valuation of the check expressions it executes iff every check
of every level passes; otherwise the flag keeps its initial `False`. -/
def checks_pass (eval : String → Bool) (cds : List (List String × List String)) : Bool :=
  cds.all (fun cd => cd.1.all eval)

/-! ## Header synthesis (`getheader`, `processor.header_proc`, `parse_exec`)

```python
def getheader(which, version=None, usehash=None): ...

def header_proc(self, inputstring, header="file", initial="initial", usehash=None, **kwargs):
    """Adds the header."""
    return getheader(initial, self.version, usehash) + self.docstring + getheader(header, self.version) + inputstring

def parse_exec(self, inputstring):
    """Parses exec code."""
    return self.parse(inputstring, self.file_parser, {}, {"header": "file", "initial": "none"})
```

`getheader` concatenates fixed template chunks (embedded below with
their exact text) around the spliced `VERSION`/`VERSION_STR` and the
version-conditional compatibility headers. -/

/-- `hash_prefix` from the source constants. -/
def hash_prefix : String :=
  "# __coconut_hash__ = "

/-- getheader: the coding-declaration chunk. -/
def hdr_coding : String :=
  "\n# -*- coding: UTF-8 -*-\n"

/-- getheader: prefix of the Compiled-with line (VERSION_STR is spliced after it). -/
def hdr_compiled_with_pre : String :=
  "\n# Compiled with Coconut version "

/-- getheader: suffix of the Compiled-with line. -/
def hdr_compiled_with_post : String :=
  "\n\n"

/-- getheader: package docstring chunk. -/
def hdr_pkgdoc : String :=
  "\"\"\"Built-in Coconut functions.\"\"\"\n\n"

/-- getheader: the `# Coconut Header:` banner chunk. -/
def hdr_banner : String :=
  "# Coconut Header: --------------------------------------------------------------\n\n"

/-- getheader: the `from __future__` chunk (targets other than \"3\"). -/
def hdr_future : String :=
  "from __future__ import print_function, absolute_import, unicode_literals, division\n"

/-- getheader: module-header sys.path chunk. -/
def hdr_module_head : String :=
  "import sys as _coconut_sys, os.path as _coconut_os_path\n_coconut_file_path = _coconut_os_path.dirname(_coconut_os_path.abspath(__file__))\n_coconut_sys.path.insert(0, _coconut_file_path)"

/-- getheader: module-header imports for target \"3\". -/
def hdr_module_v3 : String :=
  "\nfrom __coconut__ import __coconut__, __coconut_version__, MatchError, map, parallel_map, zip, reduce, takewhile, dropwhile, tee, count, recursive, datamaker, consume, py3_map, py3_zip"

/-- getheader: module-header imports for target \"2\". -/
def hdr_module_v2 : String :=
  "\nfrom __coconut__ import __coconut__, __coconut_version__, MatchError, map, parallel_map, zip, reduce, takewhile, dropwhile, tee, count, recursive, datamaker, consume, py2_chr, py2_filter, py2_hex, py2_input, py2_int, py2_map, py2_oct, py2_open, py2_print, py2_range, py2_raw_input, py2_str, py2_xrange, py2_zip, ascii, bytes, chr, filter, hex, input, int, oct, open, print, range, raw_input, str, xrange"

/-- getheader: module-header imports for the universal target. -/
def hdr_module_univ : String :=
  "\nif _coconut_sys.version_info < (3,):\n    from __coconut__ import __coconut__, __coconut_version__, MatchError, map, parallel_map, zip, reduce, takewhile, dropwhile, tee, count, recursive, datamaker, consume, py2_chr, py2_filter, py2_hex, py2_input, py2_int, py2_map, py2_oct, py2_open, py2_print, py2_range, py2_raw_input, py2_str, py2_xrange, py2_zip, ascii, bytes, chr, filter, hex, input, int, oct, open, print, range, raw_input, str, xrange\nelse:\n    from __coconut__ import __coconut__, __coconut_version__, MatchError, map, parallel_map, zip, reduce, takewhile, dropwhile, tee, count, recursive, datamaker, consume, py3_map, py3_zip"

/-- getheader: module-header sys.path cleanup chunk. -/
def hdr_module_tail : String :=
  "\n_coconut_sys.path.remove(_coconut_file_path)\n"

/-- getheader: start of the `__coconut__` class chunk (VERSION is spliced after it). -/
def hdr_class_pre : String :=
  "\nclass __coconut__(object):\n    version = \""

/-- getheader: the class-imports chunk after the spliced VERSION. -/
def hdr_class_imports : String :=
  "\"\n    import collections, functools, imp, itertools, operator, types\n"

/-- getheader: `abc` alias chunk for target \"2\". -/
def hdr_abc_v2 : String :=
  "    abc = collections"

/-- getheader: `abc` alias chunk for other targets. -/
def hdr_abc_univ : String :=
  "    if _coconut_sys.version_info < (3, 3):\n        abc = collections\n    else:\n        import collections.abc as abc"

/-- getheader: the `# Compiled Coconut:` separator chunk. -/
def hdr_compiled_sep : String :=
  "\n# Compiled Coconut: ------------------------------------------------------------\n\n"

/-- getheader: the body of the runtime `__coconut__` class (the text of the
source's large raw-string literal, lines 344-476 of `compiler.py`). -/
def hdr_class_body : String :=
  "\n    IndexError, NameError, _map, _zip, bytearray, dict, frozenset, getattr, hasattr, isinstance, iter, len, list, min, next, object, range, repr, reversed, set, slice, super, tuple = IndexError, NameError, map, zip, bytearray, dict, frozenset, getattr, hasattr, isinstance, iter, len, list, min, next, object, range, repr, reversed, set, slice, super, tuple\n    class MatchError(Exception):\n        \"\"\"Pattern-matching error.\"\"\"\n    class zip(_zip):\n        __doc__ = zip.__doc__\n        __slots__ = (\"_iters\",)\n        __coconut_is_lazy__ = True\n        def __new__(cls, *iterables):\n            new_zip = __coconut__._zip.__new__(cls, *iterables)\n            new_zip._iters = iterables\n            return new_zip\n        def __getitem__(self, index):\n            if __coconut__.isinstance(index, __coconut__.slice):\n                return self.__class__(*(__coconut__.igetitem(i, index) for i in self._iters))\n            else:\n                return (__coconut__.igetitem(i, index) for i in self._iters)\n        def __reversed__(self):\n            return self.__class__(*(__coconut__.reversed(i) for i in self._iters))\n        def __len__(self):\n            return __coconut__.min(*(__coconut__.len(i) for i in self._iters))\n        def __repr__(self):\n            return \"zip(\" + \", \".join((__coconut__.repr(i) for i in self._iters)) + \")\"\n        def __reduce_ex__(self, _):\n            return (self.__class__, self._iters)\n    class map(_map):\n        __doc__ = map.__doc__\n        __slots__ = (\"_func\", \"_iters\")\n        __coconut_is_lazy__ = True\n        def __new__(cls, function, *iterables):\n            new_map = __coconut__._map.__new__(cls, function, *iterables)\n            new_map._func, new_map._iters = function, iterables\n            return new_map\n        def __getitem__(self, index):\n            if __coconut__.isinstance(index, __coconut__.slice):\n                return self.__class__(self._func, *(__coconut__.igetitem(i, index) for i in self._iters))\n            else:\n                return self._func(*(__coconut__.igetitem(i, index) for i in self._iters))\n        def __reversed__(self):\n            return self.__class__(self._func, *(__coconut__.reversed(i) for i in self._iters))\n        def __len__(self):\n            return __coconut__.min(*(__coconut__.len(i) for i in self._iters))\n        def __repr__(self):\n            return \"map(\" + __coconut__.repr(self._func) + \", \" + \", \".join((__coconut__.repr(i) for i in self._iters)) + \")\"\n        def __reduce_ex__(self, _):\n            return (self.__class__, (self._func,) + self._iters)\n    class parallel_map(map):\n        \"\"\"Parallel implementation of map using concurrent.futures; requires arguments to be pickleable.\"\"\"\n        __slots__ = ()\n        def __iter__(self):\n            from concurrent.futures import ProcessPoolExecutor\n            with ProcessPoolExecutor() as executor:\n                for x in executor.map(self._func, *self._iters):\n                    yield x\n        def __repr__(self):\n            return \"parallel_\" + __coconut__.map.__repr__(self)\n    class count(object):\n        \"\"\"count(start, step) returns an infinite iterator starting at start and increasing by step.\"\"\"\n        __slots__ = (\"_start\", \"_step\")\n        __coconut_is_lazy__ = True\n        def __init__(self, start=0, step=1):\n            self._start, self._step = start, step\n        def __iter__(self):\n            while True:\n                yield self._start\n                self._start += self._step\n        def __getitem__(self, index):\n            if __coconut__.isinstance(index, __coconut__.slice) and (index.start is None or index.start >= 0) and (index.stop is not None and index.stop >= 0):\n                return __coconut__.map(lambda x: self._start + x * self._step, __coconut__.range(index.start if index.start is not None else 0, index.stop, index.step if index.step is not None else 1))\n            elif index >= 0:\n                return self._start + index * self._step\n            else:\n                raise __coconut__.IndexError(\"count indices must be positive\")\n        def __repr__(self):\n            return \"count(\" + str(self._start) + \", \" + str(self._step) + \")\"\n        def __reduce__(self):\n            return (self.__class__, (self._start, self._step))\n    @staticmethod\n    def igetitem(iterable, index):\n        if isinstance(iterable, __coconut__.range) or (__coconut__.hasattr(iterable, \"__coconut_is_lazy__\") and iterable.__coconut_is_lazy__):\n            return iterable[index]\n        elif __coconut__.hasattr(iterable, \"__getitem__\"):\n            if __coconut__.isinstance(index, __coconut__.slice):\n                return (x for x in iterable[index])\n            else:\n                return iterable[index]\n        elif __coconut__.isinstance(index, __coconut__.slice):\n            if (index.start is not None and index.start < 0) or (index.stop is not None and index.stop < 0) or (index.step is not None and index.step < 0):\n                return (x for x in __coconut__.tuple(iterable)[index])\n            else:\n                return __coconut__.itertools.islice(iterable, index.start, index.stop, index.step)\n        elif index < 0:\n            return __coconut__.collections.deque(iterable, maxlen=-index)[0]\n        else:\n            return __coconut__.next(__coconut__.itertools.islice(iterable, index, index + 1))\n    @staticmethod\n    def consume(iterable, keep_last=0):\n        \"\"\"Fully exhaust iterable and return the last keep_last elements.\"\"\"\n        return __coconut__.collections.deque(iterable, maxlen=keep_last)\n    @staticmethod\n    def recursive(func):\n        \"\"\"Decorates a function by optimizing it for tail recursion.\"\"\"\n        state = [True, None] # toplevel, (args, kwargs)\n        recurse = object()\n        @__coconut__.functools.wraps(func)\n        def tailed_func(*args, **kwargs):\n            \"\"\"Tail Recursion Wrapper.\"\"\"\n            if state[0]:\n                state[0] = False\n                try:\n                    while True:\n                        result = func(*args, **kwargs)\n                        if result is recurse:\n                            args, kwargs = state[1]\n                            state[1] = None\n                        else:\n                            return result\n                finally:\n                    state[0] = True\n            else:\n                state[1] = args, kwargs\n                return recurse\n        return tailed_func\n    @staticmethod\n    def datamaker(data_type):\n        \"\"\"Returns base data constructor of passed data type.\"\"\"\n        return __coconut__.functools.partial(__coconut__.super(data_type, data_type).__new__, data_type)\n\n__coconut_version__, MatchError, map, parallel_map, zip, reduce, takewhile, dropwhile, tee, count, recursive, datamaker, consume = __coconut__.version, __coconut__.MatchError, __coconut__.map, __coconut__.parallel_map, __coconut__.zip, __coconut__.functools.reduce, __coconut__.itertools.takewhile, __coconut__.itertools.dropwhile, __coconut__.itertools.tee, __coconut__.count, __coconut__.recursive, __coconut__.datamaker, __coconut__.consume\n"

/-- Modelled from the spec: `VERSION`, `VERSION_STR`, `PY2_HEADER`,
`PY3_HEADER` and `PY2_HEADER_CHECK` are imported from `coconut/root.py`,
which is not under src/; the spec says only that the header carries the
compiler version and version-conditional compatibility code, so the
embedding takes them as parameters. -/
structure RootConsts where
  VERSION : String
  VERSION_STR : String
  PY2_HEADER : String
  PY3_HEADER : String
  PY2_HEADER_CHECK : String

/-- Embedding of `getheader`. -/
def getheader (rc : RootConsts) (which : String) (version : Option String)
    (usehash : Option String) : Except CoconutErr String := do
  if which = "none" then
    return ""
  else
    let header ←
      if which = "initial" ∨ which = "package" then do
        let h ← match version with
          | none => pure "#!/usr/bin/env python"
          | some "2" => pure "#!/usr/bin/env python2"
          | some "3" => pure "#!/usr/bin/env python3"
          | some v => throw (CoconutErr.exc ("invalid Python version: " ++ v))
        let h := h ++ hdr_coding
        let h := match usehash with
          | some uh => h ++ hash_prefix ++ uh ++ "\n"
          | none => h
        let h := h ++ hdr_compiled_with_pre ++ rc.VERSION_STR ++ hdr_compiled_with_post
        pure (if which = "package" then h ++ hdr_pkgdoc else h)
      else if usehash.isSome then
        throw (.exc ("can only add a hash to an initial or package header, not " ++ which))
      else
        pure ""
    if which ≠ "initial" then
      let header := header ++ hdr_banner
      let header := if version ≠ some "3" then header ++ hdr_future else header
      let header ←
        if which = "module" then
          pure (header ++ hdr_module_head ++
            (match version with
             | some "3" => hdr_module_v3
             | some "2" => hdr_module_v2
             | _ => hdr_module_univ) ++ hdr_module_tail)
        else if which = "package" ∨ which = "code" ∨ which = "file" then
          pure (header ++
            (match version with
             | some "3" => rc.PY3_HEADER
             | some "2" => rc.PY2_HEADER
             | _ => rc.PY2_HEADER_CHECK) ++
            hdr_class_pre ++ rc.VERSION ++ hdr_class_imports ++
            (if version = some "2" then hdr_abc_v2 else hdr_abc_univ) ++
            hdr_class_body)
        else
          throw (.exc ("invalid header type: " ++ which))
      if which = "file" ∨ which = "module" then
        return header ++ hdr_compiled_sep
      else
        return header
    else
      return header

/-- Embedding of `processor.header_proc`. -/
def header_proc (rc : RootConsts) (version : Option String) (docstring : String)
    (inputstring : String) (header : String) (initial : String)
    (usehash : Option String) : Except CoconutErr String := do
  return (← getheader rc initial version usehash) ++ docstring ++
    (← getheader rc header version none) ++ inputstring

/-- The post-processing arguments `parse_exec` passes to `post` (hence to
`header_proc`): `{"header": "file", "initial": "none"}`, `usehash`
defaulted to `None`. -/
def parse_exec_postargs : String × String × Option String := ("file", "none", none)

/-- What `parse_exec` emits around a compiled body: `header_proc` applied
with `parse_exec`'s post-processing arguments. -/
def parse_exec_output (rc : RootConsts) (version : Option String)
    (docstring body : String) : Except CoconutErr String :=
  header_proc rc version docstring body
    parse_exec_postargs.1 parse_exec_postargs.2.1 parse_exec_postargs.2.2

/-! ## Indentation processor (`processor.ind_proc`, `processor.leading`)

The full Python source of the loop is reproduced in the doc comments of
the individual definitions below.  Python string helpers (`splitlines`,
`rstrip`, `lstrip`, `split("#", 1)[0]`, `endswith`) are embedded first.
-/

/-- The characters Python's `str.splitlines` treats as line boundaries
(`\r\n` is treated as one boundary by `pySplitlines`). -/
def isPyLineBreak (c : Char) : Bool :=
  c = '\n' ∨ c = '\r' ∨ c = '\x0b' ∨ c = '\x0c' ∨ c = '\x1c' ∨
  c = '\x1d' ∨ c = '\x1e' ∨ c = '\x85' ∨ c = ' ' ∨ c = ' '

/-- Python `str.splitlines` (accumulator holds the current line,
reversed). -/
def pySplitlinesGo : List Char → List Char → List String
  | [], acc => if acc.isEmpty then [] else [String.mk acc.reverse]
  | '\r' :: '\n' :: rest, acc => String.mk acc.reverse :: pySplitlinesGo rest []
  | c :: rest, acc =>
    if isPyLineBreak c then String.mk acc.reverse :: pySplitlinesGo rest []
    else pySplitlinesGo rest (c :: acc)

/-- Python `str.splitlines`. -/
def pySplitlines (s : String) : List String := pySplitlinesGo s.data []

/-- Whitespace for Python's argumentless `str.strip`/`rstrip`/`lstrip`
(the ASCII whitespace characters plus the common Unicode ones; the
compiler only ever strips ASCII whitespace). -/
def pyIsSpace (c : Char) : Bool :=
  c = ' ' ∨ c = '\t' ∨ c = '\n' ∨ c = '\r' ∨ c = '\x0b' ∨ c = '\x0c' ∨
  c = '\x1c' ∨ c = '\x1d' ∨ c = '\x1e' ∨ c = '\x85' ∨ c = '\xa0' ∨
  c = ' ' ∨ c = ' ' ∨ c = '　'

/-- Python `str.rstrip()`. -/
def pyRstrip (s : String) : String :=
  String.mk (s.data.reverse.dropWhile pyIsSpace).reverse

/-- Python `str.lstrip()`. -/
def pyLstrip (s : String) : String := String.mk (s.data.dropWhile pyIsSpace)

/-- Python `line.split("#", 1)[0]` — the text before the first `#`. -/
def beforeHash (s : String) : String := String.mk (s.data.takeWhile (· ≠ '#'))

/-- Python `s.endswith(c)` for a single character. -/
def pyEndsWith (s : String) (c : Char) : Bool := s.data.getLast? = some c

/-- Embedding of `change`: the parenthetical level change of a string
(`downs` count −1, `ups` +1). -/
def change (s : String) : ℤ :=
  s.data.foldl (fun acc c =>
    if c ∈ downs then acc - 1 else if c ∈ ups then acc + 1 else acc) 0

/-- The loop of `processor.leading`:

```python
def leading(self, inputstring):
    count = 0
    for x in range(0, len(inputstring)):
        if inputstring[x] == " ":
            if self.indchar is None: self.indchar = " "
            count += 1
        elif inputstring[x] == "\t":
            if self.indchar is None: self.indchar = "\t"
            count += tabworth - x % tabworth
        else:
            break
        if self.indchar != inputstring[x]:
            if self.strict: raise CoconutStyleError("found mixing of tabs and spaces", ...)
            else: self.warn(...)
    return count
```

Warnings are printed only, so the non-strict mixing case just continues.
-/
def leadingGo (strict : Bool) : List Char → ℕ → Option Char → ℕ →
    Except CoconutErr (ℕ × Option Char)
  | [], _, indchar, count => .ok (count, indchar)
  | c :: rest, x, indchar, count =>
    if c = ' ' then
      let indchar := if indchar = none then some ' ' else indchar
      if indchar ≠ some c ∧ strict then
        throw (.styleErr "found mixing of tabs and spaces" none)
      else
        leadingGo strict rest (x + 1) indchar (count + 1)
    else if c = '\t' then
      let indchar := if indchar = none then some '\t' else indchar
      if indchar ≠ some c ∧ strict then
        throw (.styleErr "found mixing of tabs and spaces" none)
      else
        leadingGo strict rest (x + 1) indchar (count + (tabworth - x % tabworth))
    else
      .ok (count, indchar)

/-- Embedding of `processor.leading`: leading-indent width (space = 1,
tab = next multiple of `tabworth`), updating `self.indchar`. -/
def leading (strict : Bool) (indchar : Option Char) (line : String) :
    Except CoconutErr (ℕ × Option Char) :=
  leadingGo strict line.data 0 indchar 0

/-- Python `sep.join(parts)`. -/
def pyJoin (sep : String) : List String → String
  | [] => ""
  | [l] => l
  | l :: rest => l ++ sep ++ pyJoin sep rest

/-- `line and line[-1] in white` — nonempty with trailing whitespace
character. -/
def lastCharInWhite (s : String) : Bool :=
  match s.data.getLast? with
  | some c => c ∈ white
  | none => false

/-- The mutable state of the `ind_proc` loop. -/
structure IndState where
  new : List String
  levels : List ℕ
  count : ℤ
  current : Option ℕ
  skips : Finset ℕ
  indchar : Option Char

/-- The paren-continuation and indent-measuring tail of the loop body
(split out of `ind_proc_line` for readability; `last` is the processed
previous line, `none` when `new` is empty). -/
def ind_proc_indent (strict : Bool) (selfSkips : Finset ℕ) (st : IndState)
    (line : String) (ln : ℕ) (last : Option String) :
    Except CoconutErr IndState := do
  if st.count < 0 then do
    let skips ← addskip st.skips (adjust selfSkips ln)
    return { st with
        skips := skips,
        new := st.new.dropLast ++ [last.getD "" ++ " " ++ line],
        count := st.count + change line }
  else do
    let ci ← leading strict st.indchar line
    let check := ci.1
    let st := { st with indchar := ci.2 }
    match st.current with
    | none =>
      if check ≠ 0 then
        throw (.syntaxErr "illegal initial indent" (some (adjust selfSkips ln)))
      else
        return { st with
            current := some 0,
            new := st.new ++ [line],
            count := st.count + change line }
    | some current =>
      if check > current then
        let line := openindent.toString ++ line
        return { st with
            levels := st.levels ++ [current],
            current := some check,
            new := st.new ++ [line],
            count := st.count + change line }
      else if check ∈ st.levels then
        let point := st.levels.indexOf check + 1
        let line := String.mk (List.replicate ((st.levels.drop point).length + 1)
          closeindent) ++ line
        let lv := st.levels.take point
        return { st with
            levels := lv.dropLast,
            current := some (lv.getLastD 0),
            new := st.new ++ [line],
            count := st.count + change line }
      else if current ≠ check then
        throw (.syntaxErr "illegal dedent to unused indentation level"
          (some (adjust selfSkips ln)))
      else
        return { st with new := st.new ++ [line], count := st.count + change line }

/-- Embedding of one iteration of the `ind_proc` loop (one source line,
1-based index `ln`; `selfSkips` is `self.skips`, which `self.adjust`
reads — the Python loop grows only the local `skips` copy):

```python
line = lines[ln]; ln += 1
if line and line[-1] in white:
    if self.strict: raise ... "found trailing whitespace" ... self.adjust(ln)
    else: line = line.rstrip()
if new: last = new[-1].split("#", 1)[0].rstrip()
else: last = None
if not line or line.lstrip().startswith("#"):
    if count >= 0: new.append(line)
    else: skips = addskip(skips, self.adjust(ln))
elif last is not None and last.endswith("\\"):
    if self.strict: raise ... "found backslash continuation" ... self.adjust(ln-1)
    else:
        skips = addskip(skips, self.adjust(ln))
        new[-1] = last[:-1]+" "+line
elif count < 0:
    skips = addskip(skips, self.adjust(ln))
    new[-1] = last+" "+line
else:
    check = self.leading(line)
    if current is None:
        if check: raise ... "illegal initial indent" ... self.adjust(ln)
        else: current = 0
    elif check > current:
        levels.append(current); current = check; line = openindent+line
    elif check in levels:
        point = levels.index(check)+1
        line = closeindent*(len(levels[point:])+1)+line
        levels = levels[:point]
        current = levels.pop()
    elif current != check:
        raise ... "illegal dedent to unused indentation level" ... self.adjust(ln)
    new.append(line)
count += change(line)
```
-/
def ind_proc_line_core (strict : Bool) (selfSkips : Finset ℕ) (st : IndState)
    (line : String) (ln : ℕ) : Except CoconutErr IndState := do
  let last : Option String := match st.new.getLast? with
    | some l => some (pyRstrip (beforeHash l))
    | none => none
  if line = "" ∨ (pyLstrip line).data.head? = some '#' then
    if st.count ≥ 0 then
      return { st with new := st.new ++ [line], count := st.count + change line }
    else do
      let skips ← addskip st.skips (adjust selfSkips ln)
      return { st with skips := skips, count := st.count + change line }
  else
    match last with
    | some l =>
      if pyEndsWith l '\\' then
        if strict then
          throw (.styleErr "found backslash continuation" (some (adjust selfSkips (ln - 1))))
        else do
          let skips ← addskip st.skips (adjust selfSkips ln)
          return { st with
              skips := skips,
              new := st.new.dropLast ++ [String.mk l.data.dropLast ++ " " ++ line],
              count := st.count + change line }
      else
        ind_proc_indent strict selfSkips st line ln (some l)
    | none =>
      ind_proc_indent strict selfSkips st line ln none

/-- One iteration of the `ind_proc` loop: optional trailing-whitespace
strip, then `ind_proc_line_core` (the Python source is quoted above the
two parts). -/
def ind_proc_line (strict : Bool) (selfSkips : Finset ℕ) (st : IndState)
    (line0 : String) (ln : ℕ) : Except CoconutErr IndState := do
  let line ←
    if line0 ≠ "" ∧ lastCharInWhite line0 then
      if strict then
        throw (.styleErr "found trailing whitespace" (some (adjust selfSkips ln)))
      else
        pure (pyRstrip line0)
    else
      pure line0
  ind_proc_line_core strict selfSkips st line ln

/-- The initial `ind_proc` state. -/
def ind_init (selfSkips : Finset ℕ) (indchar : Option Char) : IndState :=
  { new := [], levels := [], count := 0, current := none,
    skips := selfSkips, indchar := indchar }

/-- The fold of `ind_proc_line` over the numbered lines. -/
def ind_proc_lines (strict : Bool) (selfSkips : Finset ℕ) :
    IndState → List (ℕ × String) → Except CoconutErr IndState
  | st, [] => .ok st
  | st, (ln, line) :: rest => do
    let st ← ind_proc_line strict selfSkips st line ln
    ind_proc_lines strict selfSkips st rest

/-- Number the lines `1..n` for the fold. -/
def numberLines (lines : List String) : List (ℕ × String) :=
  (List.range lines.length).zip lines |>.map (fun p => (p.1 + 1, p.2))

/-- Embedding of `processor.ind_proc`: returns the bracketed text
together with the updated `self.skips` and `self.indchar`. -/
def ind_proc (strict : Bool) (selfSkips : Finset ℕ) (indchar : Option Char)
    (inputstring : String) : Except CoconutErr (String × Finset ℕ × Option Char) := do
  let lines := pySplitlines inputstring
  let st ← ind_proc_lines strict selfSkips (ind_init selfSkips indchar)
    (numberLines lines)
  match st.new.getLast? with
  | some l =>
    let last := pyRstrip (beforeHash l)
    if pyEndsWith last '\\' then
      throw (.syntaxErr "illegal final backslash continuation"
        (some (adjust selfSkips st.new.length)))
    else if st.count ≠ 0 then
      throw (.syntaxErr "unclosed parenthetical"
        (some (adjust selfSkips st.new.length)))
    else
      return (pyJoin "\n"
        (st.new ++ [String.mk (List.replicate st.levels.length closeindent)]),
        st.skips, st.indchar)
  | none =>
    return (pyJoin "\n"
      (st.new ++ [String.mk (List.replicate st.levels.length closeindent)]),
      st.skips, st.indchar)

/-! ### Indent-sentinel balance infrastructure for C4

`runBal z l` walks the characters of `l` keeping the running
OPEN-minus-CLOSE balance starting from `z`; it returns `none` as soon as
the balance would dip below zero.  `runBal 0 out = some 0` therefore
states both halves of the claim at once: equal counts, and every prefix
has at least as many OPENs as CLOSEs. -/

/-- Neither indent sentinel occurs in the character list. -/
def sentFree (l : List Char) : Prop := openindent ∉ l ∧ closeindent ∉ l

/-- One balance step. -/
def sentStep (z : ℤ) (c : Char) : ℤ :=
  if c = openindent then z + 1 else if c = closeindent then z - 1 else z

/-- Running balance; `none` when some prefix dips below zero. -/
def runBal : ℤ → List Char → Option ℤ
  | z, [] => some z
  | z, c :: rest => if sentStep z c < 0 then none else runBal (sentStep z c) rest

/-- The character data of the joined line list. -/
def joinData : List String → List Char
  | [] => []
  | [l] => l.data
  | l :: rest => l.data ++ '\n' :: joinData rest

/-- `rstripData` — the character-level form of `pyRstrip`. -/
def rstripData (l : List Char) : List Char :=
  (l.reverse.dropWhile pyIsSpace).reverse

/-- A line of the `new` list: CLOSE sentinels, then OPEN sentinels, then
sentinel-free text. -/
def LineOK (l : String) : Prop :=
  ∃ c o s, l.data = List.replicate c closeindent ++ (List.replicate o openindent ++ s) ∧
    sentFree s

/-- The invariant of the balance proof: every emitted line is
well-formed and the running balance of the emitted text equals the level
stack depth (never dipping negative). -/
def NewLevelsInv (new : List String) (levels : List ℕ) : Prop :=
  (∀ l ∈ new, LineOK l) ∧
  runBal 0 (joinData new) = some (levels.length : ℤ)

/-- `NewLevelsInv` on the state's fields. -/
def StInv (st : IndState) : Prop := NewLevelsInv st.new st.levels

/-! ## Strings, comments, passthroughs and their re-expansion
(`str_proc`, `passthrough_proc`, `passthrough_repl`, `str_repl`, `repl_proc`)

```python
def str_proc(self, inputstring, **kwargs):
    out = []; found = None; hold = None
    x = 0
    skips = self.skips.copy()
    while x <= len(inputstring):
        if x == len(inputstring): c = "\n"
        else: c = inputstring[x]
        if hold is not None:
            if len(hold) == 1:          # comment hold
                if c == "\n": out.append(self.wrap_comment(hold[_comment])+c); hold = None
                else: hold[_comment] += c
            elif hold[_stop] is not None:
                if c == "\\": hold[_contents] += hold[_stop]+c; hold[_stop] = None
                elif c == hold[_start][0]: hold[_stop] += c
                elif len(hold[_stop]) > len(hold[_start]): raise ... "invalid number of string closes"
                elif hold[_stop] == hold[_start]:
                    out.append(self.wrap_str(hold[_contents], hold[_start][0], True))
                    hold = None; x -= 1
                else:
                    if c == "\n":
                        if len(hold[_start]) == 1: raise ... "linebreak in non-multiline string"
                        else: skips = addskip(skips, self.adjust(lineno(x, inputstring)))
                    hold[_contents] += hold[_stop]+c; hold[_stop] = None
            elif count_end(hold[_contents], "\\") % 2 == 1:
                if c == "\n": skips = addskip(skips, self.adjust(lineno(x, inputstring)))
                hold[_contents] += c
            elif c == hold[_start]:
                out.append(self.wrap_str(hold[_contents], hold[_start], False)); hold = None
            elif c == hold[_start][0]: hold[_stop] = c
            else:
                if c == "\n":
                    if len(hold[_start]) == 1: raise ... "linebreak in non-multiline string"
                    else: skips = addskip(skips, self.adjust(lineno(x, inputstring)))
                hold[_contents] += c
        elif found is not None:
            if c == found[0]: found += c
            elif len(found) == 1:
                if c == "\n": raise ... "linebreak in non-multiline string"
                else: hold = [c, found, None]; found = None
            elif len(found) == 2:
                out.append(self.wrap_str("", found[0], False)); found = None; x -= 1
            elif len(found) == 3:
                if c == "\n": skips = addskip(skips, self.adjust(lineno(x, inputstring)))
                hold = [c, found, None]; found = None
            else: raise ... "invalid number of string starts"
        elif c == "#": hold = [""]
        elif c in holds: found = c
        else: out.append(c)
        x += 1
    if hold is not None or found is not None: raise ... "unclosed string"
    else:
        self.skips = skips
        return "".join(out)

def repl_proc(self, inputstring, **kwargs):
    return self.str_repl(self.passthrough_repl(inputstring))
```

`passthrough_proc` (source lines 1487-1531) scans for `\`-prefixed
passthroughs (`\x` single-line up to newline, `\(...)` multiline up to the
balancing paren via `change`), wraps them with `wrap_passthrough`, and
copies everything else; `passthrough_repl` (lines 1653-1662) and `str_repl`
(lines 1664-1708) re-expand `\index⏹`, `'index⏹` and `#index⏹` markers from
`self.refs`, collecting decimal indices with `c in nums`.
-/

/-! ## Strings, comments and passthroughs (`str_proc`, `passthrough_proc`,
`passthrough_repl`, `str_repl`, `repl_proc`)

`nums` is pyparsing's digit alphabet (`nums = "0123456789"`), imported by
`from pyparsing import *`. -/

def nums : List Char := ['0', '1', '2', '3', '4', '5', '6', '7', '8', '9']

/-- Embedding of the module-level `count_end(teststr, testchar)`: the number
of copies of `testchar` at the end of `teststr`. -/
def count_end (l : List Char) (c : Char) : ℕ :=
  (l.reverse.takeWhile (· = c)).length

/-- `int(s)` on a string of decimal digits, as `str_repl`/`passthrough_repl`
apply it to collected marker indices. -/
def parseNatDigits (ds : List Char) : ℕ :=
  ds.foldl (fun a c => a * 10 + (c.toNat - 48)) 0

/-- The decimal digit list of `n` — `Nat.toDigits 10 n` with the fuel
removed, convenient for induction. -/
def decDigits (n : ℕ) : List Char :=
  if _h : n < 10 then [Nat.digitChar n]
  else decDigits (n / 10) ++ [Nat.digitChar (n % 10)]
termination_by n
decreasing_by exact Nat.div_lt_self (by omega) (by norm_num)

/-- The `hold` variable of `str_proc`: either `[_comment]` (the contents of a
comment) or `[_contents, _start, _stop]` (the contents of a string, the
characters that started it, and the store of characters that might end it). -/
inductive HoldSt where
  | comment (contents : List Char)
  | strg (contents start : List Char) (stop : Option (List Char))
  deriving DecidableEq, Repr

/-- The mutable state of the `str_proc` loop (`self.refs`, the local `skips`
copy, `out`, `found`, `hold`). `out` is kept as the Python list of appended
pieces, joined only at the end. -/
structure SPSt where
  refs : List Ref
  skips : Finset ℕ
  out : List (List Char)
  found : Option (List Char)
  hold : Option HoldSt
  deriving DecidableEq

/-- The scanning dispatch of `str_proc` (the `elif c == "#" / elif c in
holds / else` chain), reached when `hold` and `found` are both `None` —
including right after the two `x -= 1` rewinds, which re-process the current
character in exactly this state. -/
def str_proc_scan (st : SPSt) (c : Char) : SPSt :=
  if c = '#' then { st with hold := some (.comment []) }
  else if c ∈ holds then { st with found := some [c] }
  else { st with out := st.out ++ [[c]] }

/-- One iteration of the `str_proc` loop body on character `c`, at source
line `ln` (Python's `lineno(x, inputstring)`); `selfSkips` is `self.skips`,
which `self.adjust` reads (only the local copy in `st.skips` grows). The two
`x -= 1` rewinds re-process `c` with `hold = found = None`, i.e. through
`str_proc_scan`, which is inlined here. Errors carry
`adjust(lineno(x))` as `make_err` computes for the reported line. -/
def str_proc_step (selfSkips : Finset ℕ) (ln : ℕ) (st : SPSt) (c : Char) :
    Except CoconutErr SPSt :=
  match st.hold with
  | some (.comment contents) =>
      if c = '\n' then
        let w := wrap_comment st.refs (String.mk contents)
        .ok { st with refs := w.1, out := st.out ++ [w.2.data ++ [c]], hold := none }
      else .ok { st with hold := some (.comment (contents ++ [c])) }
  | some (.strg contents start stop) =>
      match stop with
      | some sp =>
          if c = '\\' then
            .ok { st with hold := some (.strg (contents ++ sp ++ [c]) start none) }
          else if start.head? = some c then
            .ok { st with hold := some (.strg contents start (some (sp ++ [c]))) }
          else if start.length < sp.length then
            throw (.syntaxErr "invalid number of string closes" (some (adjust selfSkips ln)))
          else if sp = start then
            let w := wrap_str st.refs (String.mk contents) (start.headD ' ') true
            .ok (str_proc_scan { st with refs := w.1, out := st.out ++ [w.2.data], hold := none } c)
          else if c = '\n' then
            if start.length = 1 then
              throw (.syntaxErr "linebreak in non-multiline string" (some (adjust selfSkips ln)))
            else do
              let skips' ← addskip st.skips (adjust selfSkips ln)
              .ok { st with skips := skips', hold := some (.strg (contents ++ sp ++ [c]) start none) }
          else .ok { st with hold := some (.strg (contents ++ sp ++ [c]) start none) }
      | none =>
          if count_end contents '\\' % 2 = 1 then
            if c = '\n' then do
              let skips' ← addskip st.skips (adjust selfSkips ln)
              .ok { st with skips := skips', hold := some (.strg (contents ++ [c]) start none) }
            else .ok { st with hold := some (.strg (contents ++ [c]) start none) }
          else if start = [c] then
            let w := wrap_str st.refs (String.mk contents) (start.headD ' ') false
            .ok { st with refs := w.1, out := st.out ++ [w.2.data], hold := none }
          else if start.head? = some c then
            .ok { st with hold := some (.strg contents start (some [c])) }
          else if c = '\n' then
            if start.length = 1 then
              throw (.syntaxErr "linebreak in non-multiline string" (some (adjust selfSkips ln)))
            else do
              let skips' ← addskip st.skips (adjust selfSkips ln)
              .ok { st with skips := skips', hold := some (.strg (contents ++ [c]) start none) }
          else .ok { st with hold := some (.strg (contents ++ [c]) start none) }
  | none =>
      match st.found with
      | some f =>
          if f.head? = some c then .ok { st with found := some (f ++ [c]) }
          else if f.length = 1 then
            if c = '\n' then
              throw (.syntaxErr "linebreak in non-multiline string" (some (adjust selfSkips ln)))
            else .ok { st with found := none, hold := some (.strg [c] f none) }
          else if f.length = 2 then
            let w := wrap_str st.refs "" (f.headD ' ') false
            .ok (str_proc_scan { st with refs := w.1, out := st.out ++ [w.2.data], found := none } c)
          else if f.length = 3 then
            if c = '\n' then do
              let skips' ← addskip st.skips (adjust selfSkips ln)
              .ok { st with skips := skips', found := none, hold := some (.strg [c] f none) }
            else .ok { st with found := none, hold := some (.strg [c] f none) }
          else throw (.syntaxErr "invalid number of string starts" (some (adjust selfSkips ln)))
      | none => .ok (str_proc_scan st c)

/-- The `str_proc` loop: runs `str_proc_step` over the input characters,
then once more on the virtual final `"\n"` (the `x == len(inputstring)`
iteration), then performs the `hold is not None or found is not None`
unclosed-string check. `ln` advances exactly when a newline is consumed,
mirroring `lineno(x, inputstring)`. -/
def str_proc_go (selfSkips : Finset ℕ) :
    List Char → ℕ → SPSt → Except CoconutErr SPSt
  | [], ln, st => do
      let st' ← str_proc_step selfSkips ln st '\n'
      if st'.hold = none ∧ st'.found = none then .ok st'
      else throw (.syntaxErr "unclosed string" (some (adjust selfSkips ln)))
  | c :: rest, ln, st => do
      let st' ← str_proc_step selfSkips ln st c
      str_proc_go selfSkips rest (if c = '\n' then ln + 1 else ln) st'

/-- Embedding of `processor.str_proc`: returns the new `self.refs`, the new
`self.skips` and `"".join(out)`. -/
def str_proc (selfSkips : Finset ℕ) (refs : List Ref) (input : String) :
    Except CoconutErr (List Ref × Finset ℕ × String) := do
  let st ← str_proc_go selfSkips input.data 1 ⟨refs, selfSkips, [], none, none⟩
  .ok (st.refs, st.skips, String.mk st.out.flatten)

/-- State of the `passthrough_proc` loop. The Python variables
`found`/`hold`/`count`/`multiline` only ever occur jointly as: all `None`
(scanning); `found is True` (just saw a backslash); or `hold` a terminator
with `found` a string accumulator. -/
inductive PTState where
  | scanning
  | seenBackslash
  | inPass (found : List Char) (hold : Char) (count : ℤ) (multiline : Bool)
  deriving DecidableEq, Repr

/-- The `passthrough_proc` loop over the input characters (no virtual final
character here: the Python loop is `for x in range(0, len(inputstring))`). -/
def passthrough_proc_go (selfSkips : Finset ℕ) :
    List Char → ℕ → List Ref → Finset ℕ → List (List Char) → PTState →
    Except CoconutErr (List Ref × Finset ℕ × List (List Char) × PTState)
  | [], _ln, refs, skips, out, st => .ok (refs, skips, out, st)
  | c :: rest, ln, refs, skips, out, st =>
    let ln' := if c = '\n' then ln + 1 else ln
    match st with
    | .inPass found hold count multiline =>
        let count := count + change c.toString
        if 0 ≤ count ∧ c = hold then
          let (refs', piece) := wrap_passthrough refs (String.mk found) multiline
          passthrough_proc_go selfSkips rest ln' refs' skips (out ++ [piece.data]) .scanning
        else if c = '\n' then do
          let skips' ← addskip skips (adjust selfSkips ln)
          passthrough_proc_go selfSkips rest ln' refs skips' out
            (.inPass (found ++ [c]) hold count multiline)
        else
          passthrough_proc_go selfSkips rest ln' refs skips out
            (.inPass (found ++ [c]) hold count multiline)
    | .seenBackslash =>
        if c = '\\' then
          passthrough_proc_go selfSkips rest ln' refs skips out (.inPass [] '\n' 0 false)
        else if c = '(' then
          passthrough_proc_go selfSkips rest ln' refs skips out (.inPass [] ')' (-1) true)
        else
          passthrough_proc_go selfSkips rest ln' refs skips (out ++ [['\\', c]]) .scanning
    | .scanning =>
        if c = '\\' then
          passthrough_proc_go selfSkips rest ln' refs skips out .seenBackslash
        else
          passthrough_proc_go selfSkips rest ln' refs skips (out ++ [[c]]) .scanning

/-- Embedding of `processor.passthrough_proc`. -/
def passthrough_proc (selfSkips : Finset ℕ) (refs : List Ref) (input : String) :
    Except CoconutErr (List Ref × Finset ℕ × String) := do
  let (refs', skips', out, st) ←
    passthrough_proc_go selfSkips input.data 1 refs selfSkips [] .scanning
  if st = PTState.scanning then .ok (refs', skips', String.mk out.flatten)
  else
    throw (.syntaxErr "unclosed passthrough"
      (some (adjust selfSkips (input.data.dropLast.count '\n' + 1))))

/-- One `passthrough_repl` loop iteration on a real character (`c` not
`None`); `index` is the digit accumulator after a backslash. The implicit
`else: pass` of the Python branch chain (reached when `c == "\\"` and
`index == ""`) leaves the state unchanged. The `IndexError` Python raises on
an out-of-range `self.refs[int(index)]` is modelled as `.exc`. -/
def passthrough_repl_char (refs : List Ref) (out : List Char)
    (index : Option (List Char)) (c : Char) :
    Except CoconutErr (List Char × Option (List Char)) :=
  match index with
  | some ds =>
      if c ∈ nums then .ok (out, some (ds ++ [c]))
      else if c = unwrapper ∧ ds ≠ [] then
        match refs[parseNatDigits ds]? with
        | some (.plain text) => .ok (out ++ text.data, none)
        | some (.tuple _ _ _) => throw (.exc "passthrough marker points to string")
        | none => throw (.exc "list index out of range")
      else if c ≠ '\\' ∨ ds ≠ [] then .ok (out ++ '\\' :: ds ++ [c], none)
      else .ok (out, some ds)
  | none =>
      if c = '\\' then .ok (out, some [])
      else .ok (out ++ [c], none)

/-- The `passthrough_repl` loop; the final `x == len(inputstring)` iteration
(`c = None`) flushes a pending `"\\" + index` without appending `c`. -/
def passthrough_repl_go (refs : List Ref) :
    List Char → List Char → Option (List Char) → Except CoconutErr (List Char)
  | [], out, index =>
      match index with
      | some ds => .ok (out ++ '\\' :: ds)
      | none => .ok out
  | c :: rest, out, index => do
      let (out', index') ← passthrough_repl_char refs out index c
      passthrough_repl_go refs rest out' index'

/-- Embedding of `processor.passthrough_repl`. -/
def passthrough_repl (refs : List Ref) (input : String) :
    Except CoconutErr String := do
  let out ← passthrough_repl_go refs input.data [] none
  .ok (String.mk out)

/-- State of the `str_repl` loop: the `comment` and `string` digit
accumulators (at most one is non-`None` at a time). -/
inductive ReplSt where
  | scanning
  | inComment (ds : List Char)
  | inString (ds : List Char)
  deriving DecidableEq, Repr

/-- One `str_repl` loop iteration on a real character. The comment branch
re-inserts a space when `out` is nonempty and does not end in a newline; the
string branch re-expands the stored quotes. Out-of-range `self.refs`
accesses are modelled as `.exc`. -/
def str_repl_char (refs : List Ref) (out : List Char) (st : ReplSt) (c : Char) :
    Except CoconutErr (List Char × ReplSt) :=
  match st with
  | .inComment ds =>
      if c ∈ nums then .ok (out, .inComment (ds ++ [c]))
      else if c = unwrapper ∧ ds ≠ [] then
        match refs[parseNatDigits ds]? with
        | some (.plain text) =>
            let out := if out ≠ [] ∧ out.getLast? ≠ some '\n' then out ++ [' '] else out
            .ok (out ++ '#' :: text.data, .scanning)
        | some (.tuple _ _ _) => throw (.exc "comment marker points to string")
        | none => throw (.exc "list index out of range")
      else throw (.exc "invalid comment marker in")
  | .inString ds =>
      if c ∈ nums then .ok (out, .inString (ds ++ [c]))
      else if c = unwrapper ∧ ds ≠ [] then
        match refs[parseNatDigits ds]? with
        | some (.tuple text strchar multiline) =>
            let quotes := if multiline then List.replicate 3 strchar else [strchar]
            .ok (out ++ quotes ++ text.data ++ quotes, .scanning)
        | some (.plain _) => throw (.exc "string marker points to comment/passthrough")
        | none => throw (.exc "list index out of range")
      else throw (.exc "invalid string marker in")
  | .scanning =>
      if c = '#' then .ok (out, .inComment [])
      else if c = strwrapper then .ok (out, .inString [])
      else .ok (out ++ [c], .scanning)

/-- The `str_repl` loop over the real characters. -/
def str_repl_go (refs : List Ref) :
    List Char → List Char → ReplSt → Except CoconutErr (List Char × ReplSt)
  | [], out, st => .ok (out, st)
  | c :: rest, out, st => do
      let (out', st') ← str_repl_char refs out st c
      str_repl_go refs rest out' st'

/-- Embedding of `processor.str_repl`; the final `c = None` iteration raises
on a pending comment/string accumulator and otherwise returns `out`. -/
def str_repl (refs : List Ref) (input : String) : Except CoconutErr String := do
  let (out, st) ← str_repl_go refs input.data [] .scanning
  match st with
  | .scanning => .ok (String.mk out)
  | .inComment _ => throw (.exc "invalid comment marker in")
  | .inString _ => throw (.exc "invalid string marker in")

/-- Embedding of `processor.repl_proc`:
`self.str_repl(self.passthrough_repl(inputstring))`. -/
def repl_proc (refs : List Ref) (input : String) : Except CoconutErr String := do
  str_repl refs (← passthrough_repl refs input)

/-- The S2 → S3 → S8 pipeline of the round-trip claim, started from a fresh
processor (`self.refs = []`, `self.skips = set()`): `str_proc`, then
`passthrough_proc` on its output (with `self.skips` updated by S2), then
`repl_proc` with the final refs. -/
def marker_roundtrip (input : String) : Except CoconutErr String := do
  let (refs1, skips1, s2) ← str_proc ∅ [] input
  let (refs2, _skips2, s3) ← passthrough_proc skips1 refs1 s2
  repl_proc refs2 s3

/-- Re-expansion of a stored string ref, as the `isinstance(ref, tuple)`
branch of `str_repl` performs it. -/
def renderStrRef : Ref → List Char
  | .tuple text strchar multiline =>
      (if multiline then List.replicate 3 strchar else [strchar]) ++ text.data ++
        (if multiline then List.replicate 3 strchar else [strchar])
  | .plain _ => []

/-- Decoding of one `str_proc` `out` piece under a refs table: a piece
beginning with `strwrapper` is a string marker and re-expands through its
ref; any other piece stands for itself. -/
def decodePiece (refs : List Ref) (p : List Char) : List Char :=
  if p.head? = some strwrapper then
    match refs[parseNatDigits p.tail.dropLast]? with
    | some r => renderStrRef r
    | none => []
  else p

/-- Decoding of the whole `out` list. -/
def piecesDecode (refs : List Ref) (pieces : List (List Char)) : List Char :=
  (pieces.map (decodePiece refs)).flatten

/-- The `out` pieces `str_proc` emits on `'#'`- and backslash-free input:
single non-special characters, and string markers whose decimal index points
at a stored string tuple. -/
inductive PieceOK (refs : List Ref) : List Char → Prop where
  | plain (c : Char) (hhash : c ≠ '#') (hwrap : c ≠ strwrapper) (hbs : c ≠ '\\') :
      PieceOK refs [c]
  | marker (i : ℕ) (text : String) (strchar : Char) (multiline : Bool)
      (hi : refs[i]? = some (.tuple text strchar multiline)) :
      PieceOK refs (strwrapper :: decDigits i ++ [unwrapper])

/-- The source characters represented by the in-flight `found`/`hold` state:
consumed by the loop but not yet emitted to `out`. -/
def pendingText (found : Option (List Char)) (hold : Option HoldSt) : List Char :=
  (match found with
   | some f => f
   | none => []) ++
  (match hold with
   | some (.comment contents) => '#' :: contents
   | some (.strg contents start stop) => start ++ contents ++ stop.getD []
   | none => [])

/-- Invariant on the `str_proc` loop state over `'#'`- and backslash-free
input: all emitted pieces are well-formed, `found` is a nonempty run of one
quote character, `found` and `hold` are never both set, a string hold
started with one or three copies of a quote and its stop store is a nonempty
run of the same quote (only for triple quotes), and no comment is ever held. -/
structure SPOK (st : SPSt) : Prop where
  pieces : ∀ p ∈ st.out, PieceOK st.refs p
  found_ok : ∀ f, st.found = some f → ∃ q k, q ∈ holds ∧ 1 ≤ k ∧ f = List.replicate k q
  not_both : st.found = none ∨ st.hold = none
  hold_ok : ∀ contents start stop, st.hold = some (.strg contents start stop) →
    ∃ q, q ∈ holds ∧ (start = [q] ∨ start = [q, q, q]) ∧ '\\' ∉ contents ∧
      ∀ sp, stop = some sp → start = [q, q, q] ∧ ∃ j, 1 ≤ j ∧ sp = List.replicate j q
  no_comment : ∀ contents, st.hold ≠ some (.comment contents)

/-! ## Theorems -/

/-! ### Theorems for C1 and C10 -/


/-- C1: pipelines lower left-associatively to calls: `x |> f` compiles to
`(f)(x)`, `x |*> f` to `(f)(*x)`, `f <| x` to `(f)(x)`, `f <*| x` to
`(f)(*x)`; and the compiled body of `x |> f |> g` is `(g)((f)(x))` (so in
particular it contains that text). -/
theorem pipeline_lowering :
    (∀ x f : String, pipe_handle [x, "|>", f] = .ok ("(" ++ f ++ ")(" ++ x ++ ")")) ∧
    (∀ x f : String, pipe_handle [x, "|*>", f] = .ok ("(" ++ f ++ ")(*" ++ x ++ ")")) ∧
    (∀ f x : String, pipe_handle [f, "<|", x] = .ok ("(" ++ f ++ ")(" ++ x ++ ")")) ∧
    (∀ f x : String, pipe_handle [f, "<*|", x] = .ok ("(" ++ f ++ ")(*" ++ x ++ ")")) ∧
    pipe_handle ["x", "|>", "f", "|>", "g"] = .ok "(g)((f)(x))" :=
  ⟨fun _ _ => rfl, fun _ _ => rfl, fun _ _ => rfl, fun _ _ => rfl, rfl⟩

/-- `pyIndex` finds a valid index pointing at the ref. -/
theorem pyIndex_get (refs : List Ref) (r : Ref) :
    ∀ i, pyIndex refs r = some i → i < refs.length ∧ refs[i]? = some r := by
  induction refs with
  | nil => intro i h; simp [pyIndex] at h
  | cons x xs ih =>
    intro i h
    by_cases hx : x = r
    · simp [pyIndex, hx] at h
      subst h
      simp [hx]
    · simp [pyIndex, hx] at h
      obtain ⟨j, hj, hji⟩ := h
      obtain ⟨h1, h2⟩ := ih j hj
      subst hji
      refine ⟨by simpa using Nat.succ_lt_succ h1, by simpa using h2⟩

/-- Appending a fresh ref makes `pyIndex` find it at the end. -/
theorem pyIndex_append_self (refs : List Ref) (r : Ref)
    (h : pyIndex refs r = none) : pyIndex (refs ++ [r]) r = some refs.length := by
  induction refs with
  | nil => simp [pyIndex]
  | cons x xs ih =>
    by_cases hx : x = r
    · simp [pyIndex, hx] at h
    · have h' : pyIndex xs r = none := by
        cases hxs : pyIndex xs r with
        | none => rfl
        | some j => simp [pyIndex, hx, hxs] at h
      have := ih h'
      simp [pyIndex, hx, this]

/-- C10: `add_ref` on a ref already present returns the index of the
existing entry and leaves the refs list unchanged; calling it twice with
equal contents yields the same index and list (idempotence on equal
contents); and the returned index is always a valid index into the
updated refs list, pointing at the given ref. -/
theorem add_ref_idempotent_valid (refs : List Ref) (r : Ref) :
    (∀ i, pyIndex refs r = some i → add_ref refs r = (refs, i)) ∧
    (add_ref (add_ref refs r).1 r = add_ref refs r) ∧
    (add_ref refs r).2 < (add_ref refs r).1.length ∧
    (add_ref refs r).1[(add_ref refs r).2]? = some r := by
  have main : (add_ref refs r).2 < (add_ref refs r).1.length ∧
      (add_ref refs r).1[(add_ref refs r).2]? = some r ∧
      pyIndex (add_ref refs r).1 r = some (add_ref refs r).2 := by
    cases hidx : pyIndex refs r with
    | some i =>
      obtain ⟨h1, h2⟩ := pyIndex_get refs r i hidx
      exact ⟨by simpa [add_ref, hidx] using h1,
             by simpa [add_ref, hidx] using h2,
             by simp [add_ref, hidx]⟩
    | none =>
      refine ⟨by simp [add_ref, hidx], ?_, ?_⟩
      · simp [add_ref, hidx]
      · simpa [add_ref, hidx] using pyIndex_append_self refs r hidx
  refine ⟨?_, ?_, main.1, main.2.1⟩
  · intro i h
    simp [add_ref, h]
  · rcases hp : add_ref refs r with ⟨l, n⟩
    have hidx : pyIndex l r = some n := by
      have := main.2.2
      rw [hp] at this
      exact this
    simp [add_ref, hidx]

/-- C10 witness at a concrete side table: on a table already holding the
ref, `add_ref` returns the existing index `0` without appending, and on a
fresh table a second addition of the same ref changes nothing. -/
theorem add_ref_idempotent_valid_witness :
    pyIndex [Ref.plain "note"] (.plain "note") = some 0 ∧
    add_ref [Ref.plain "note"] (.plain "note") = ([Ref.plain "note"], 0) ∧
    add_ref (add_ref [] (Ref.plain "x")).1 (.plain "x") = add_ref [] (.plain "x") := by
  refine ⟨by decide, ?_, ?_⟩
  · exact (add_ref_idempotent_valid [Ref.plain "note"] (.plain "note")).1 0 (by decide)
  · exact (add_ref_idempotent_valid [] (.plain "x")).2.1

/-- The loop value only grows. -/
theorem adjustGo_ge (skips : Finset ℕ) (ln : ℕ) :
    ∀ adj i, adj ≤ adjustGo skips ln adj i := by
  intro adj i
  induction adj, i using adjustGo.induct skips ln with
  | case1 adj i h hmem ih =>
    rw [adjustGo, dif_pos h, if_pos hmem]
    omega
  | case2 adj i h hmem ih =>
    rw [adjustGo, dif_pos h, if_neg hmem]
    omega
  | case3 adj i h =>
    rw [adjustGo, dif_neg h]

/-- One productive step: with work left, the loop strictly increases. -/
theorem adjustGo_gt (skips : Finset ℕ) (ln : ℕ) (adj i : ℕ) (h : i < ln) :
    adj < adjustGo skips ln adj i := by
  rw [adjustGo, dif_pos h]
  by_cases hmem : (adj + 1) ∈ skips
  · rw [if_pos hmem]
    have := adjustGo_ge skips ln (adj + 1) i
    omega
  · rw [if_neg hmem]
    have := adjustGo_ge skips ln (adj + 1) (i + 1)
    omega

/-- Loop invariant: `adj = i + |{s ∈ skips : s ≤ adj}|` is preserved, so
on exit the result `a` satisfies `a = ln + |{s ∈ skips : s ≤ a}|`. -/
theorem adjustGo_inv (skips : Finset ℕ) (ln : ℕ) :
    ∀ adj i, i ≤ ln → adj = i + (skips.filter (fun s => s ≤ adj)).card →
      adjustGo skips ln adj i =
        ln + (skips.filter (fun s => s ≤ adjustGo skips ln adj i)).card := by
  intro adj i
  induction adj, i using adjustGo.induct skips ln with
  | case1 adj i h hmem ih =>
    intro _ hinv
    rw [adjustGo, dif_pos h, if_pos hmem]
    refine ih (by omega) ?_
    have hsplit : skips.filter (fun s => s ≤ adj + 1) =
        insert (adj + 1) (skips.filter (fun s => s ≤ adj)) := by
      ext s
      simp only [Finset.mem_filter, Finset.mem_insert]
      constructor
      · rintro ⟨hs, hle⟩
        rcases Nat.lt_or_ge s (adj + 1) with h' | h'
        · exact Or.inr ⟨hs, by omega⟩
        · exact Or.inl (by omega)
      · rintro (rfl | ⟨hs, hle⟩)
        · exact ⟨hmem, le_refl _⟩
        · exact ⟨hs, by omega⟩
    have hnotin : (adj + 1) ∉ skips.filter (fun s => s ≤ adj) := by
      simp only [Finset.mem_filter]
      rintro ⟨-, hle⟩
      omega
    rw [hsplit, Finset.card_insert_of_not_mem hnotin]
    omega
  | case2 adj i h hmem ih =>
    intro _ hinv
    rw [adjustGo, dif_pos h, if_neg hmem]
    refine ih h ?_
    have hsame : skips.filter (fun s => s ≤ adj + 1) =
        skips.filter (fun s => s ≤ adj) := by
      ext s
      simp only [Finset.mem_filter]
      constructor
      · rintro ⟨hs, hle⟩
        refine ⟨hs, ?_⟩
        rcases Nat.lt_or_ge s (adj + 1) with h' | h'
        · omega
        · exact absurd (by omega : s = adj + 1) (by rintro rfl; exact hmem hs)
      · rintro ⟨hs, hle⟩
        exact ⟨hs, by omega⟩
    rw [hsame]
    omega
  | case3 adj i h =>
    intro hle hinv
    rw [adjustGo, dif_neg h]
    have : i = ln := by omega
    omega

/-- The fixed-point equation satisfied by `adjust` when all skips are
positive. -/
theorem adjust_eq (skips : Finset ℕ) (h0 : 0 ∉ skips) (L : ℕ) :
    adjust skips L = L + (skips.filter (fun s => s ≤ adjust skips L)).card := by
  refine adjustGo_inv skips L 0 0 (Nat.zero_le _) ?_
  have hfe : skips.filter (fun s => s ≤ 0) = ∅ := by
    ext s
    simp only [Finset.mem_filter, Finset.not_mem_empty, iff_false]
    rintro ⟨hs, hle⟩
    exact h0 (by simpa [Nat.le_zero.mp hle] using hs)
  rw [hfe]
  simp

/-- C5 (amended): for a `SkipSet` of positive line numbers (the only kind
`addskip` constructs), `adjust` returns the `L`-th line that is *not*
skipped: it satisfies `adjust(L) = L + |{s ∈ SkipSet : s ≤ adjust(L)}|`
(skips counted up to the *original* line, not up to `L` as the claim
states), and it is strictly increasing in `L`. -/
theorem adjust_spec (skips : Finset ℕ) (h0 : 0 ∉ skips) :
    (∀ L, adjust skips L =
        L + (skips.filter (fun s => s ≤ adjust skips L)).card) ∧
    (∀ L, adjust skips L < adjust skips (L + 1)) := by
  refine ⟨adjust_eq skips h0, ?_⟩
  intro L
  have h1 := adjust_eq skips h0 L
  have h2 := adjust_eq skips h0 (L + 1)
  by_contra hcon
  push_neg at hcon
  set A := adjust skips L with hA
  set B := adjust skips (L + 1) with hB
  -- split the skips below `A` into those below `B` and those in `(B, A]`
  have hsub1 : skips.filter (fun s => s ≤ B) ⊆ skips.filter (fun s => s ≤ A) := by
    intro s hs
    simp only [Finset.mem_filter] at hs ⊢
    exact ⟨hs.1, le_trans hs.2 hcon⟩
  have hsplit : (skips.filter (fun s => s ≤ A)).card =
      (skips.filter (fun s => s ≤ B)).card +
      (skips.filter (fun s => B < s ∧ s ≤ A)).card := by
    have key := Finset.filter_card_add_filter_neg_card_eq_card
      (s := skips.filter (fun s => s ≤ A)) (p := fun s => s ≤ B)
    have e1 : (skips.filter (fun s => s ≤ A)).filter (fun s => s ≤ B) =
        skips.filter (fun s => s ≤ B) := by
      ext s
      simp only [Finset.mem_filter]
      exact ⟨fun ⟨⟨hs, _⟩, hb⟩ => ⟨hs, hb⟩,
             fun ⟨hs, hb⟩ => ⟨⟨hs, le_trans hb hcon⟩, hb⟩⟩
    have e2 : (skips.filter (fun s => s ≤ A)).filter (fun s => ¬ s ≤ B) =
        skips.filter (fun s => B < s ∧ s ≤ A) := by
      ext s
      simp only [Finset.mem_filter]
      constructor
      · rintro ⟨⟨hs, ha⟩, hb⟩
        exact ⟨hs, by omega, ha⟩
      · rintro ⟨hs, hb, ha⟩
        exact ⟨⟨hs, ha⟩, by omega⟩
    rw [e1, e2] at key
    omega
  have hioc : (skips.filter (fun s => B < s ∧ s ≤ A)).card ≤ A - B := by
    have hsub : skips.filter (fun s => B < s ∧ s ≤ A) ⊆ Finset.Ioc B A := by
      intro s hs
      simp only [Finset.mem_filter] at hs
      simp only [Finset.mem_Ioc]
      exact ⟨hs.2.1, hs.2.2⟩
    have := Finset.card_le_card hsub
    simpa [Nat.card_Ioc] using this
  omega

/-- C5 witness: for `SkipSet = {2,3}` the amended formula holds at `L=2`
(`adjust 2 = 4 = 2 + |{2,3}|`), and `adjust` increases from `L=2` to
`L=3`. -/
theorem adjust_spec_witness :
    (0 : ℕ) ∉ ({2, 3} : Finset ℕ) ∧
    adjust {2, 3} 2 = 2 + (({2, 3} : Finset ℕ).filter (fun s => s ≤ adjust {2, 3} 2)).card ∧
    adjust {2, 3} 2 < adjust {2, 3} 3 := by
  have h := adjust_spec ({2, 3} : Finset ℕ) (by decide)
  exact ⟨by decide, h.1 2, h.2 2⟩

/-- C5 counterexample: with `SkipSet = {2,3}` and `L = 2`, the code
returns `adjust(2) = 4`, but the spec formula `L + |{s ≤ L}|` gives `3`.
-/
theorem adjust_formula_counterexample :
    adjust ({2, 3} : Finset ℕ) 2 = 4 ∧
    2 + (({2, 3} : Finset ℕ).filter (fun s => s ≤ 2)).card = 3 ∧
    (4 : ℕ) ≠ 3 := by
  refine ⟨?_, by decide, by decide⟩
  have hA := adjust_eq ({2, 3} : Finset ℕ) (by decide) 2
  set A := adjust ({2, 3} : Finset ℕ) 2 with hAdef
  have hcard_le : (({2, 3} : Finset ℕ).filter (fun s => s ≤ A)).card ≤ 2 := by
    have : (({2, 3} : Finset ℕ).filter (fun s => s ≤ A)) ⊆ ({2, 3} : Finset ℕ) :=
      Finset.filter_subset _ _
    have := Finset.card_le_card this
    simpa using this
  have hA4 : A ≤ 4 := by omega
  have hA2 : 2 ≤ A := by omega
  interval_cases A
  · -- A = 2 : the fixed-point equation fails
    exfalso
    rw [show (({2, 3} : Finset ℕ).filter (fun s => s ≤ 2)) = {2} from by decide] at hA
    simp at hA
  · exfalso
    rw [show (({2, 3} : Finset ℕ).filter (fun s => s ≤ 3)) = {2, 3} from by decide] at hA
    simp at hA
  · rfl

/-- C6 counterexample: the compiled body of `(f..g)(1)` is
`((lambda *args, **kwargs: f((g)(*args, **kwargs))))(1)` — the code
parenthesizes `g` — so the text `(lambda *args, **kwargs: f(g(*args,
**kwargs)))(1)` claimed by the spec does **not** occur in it. -/
theorem compose_claim_counterexample :
    composeCallBody = .ok "((lambda *args, **kwargs: f((g)(*args, **kwargs))))(1)" ∧
    ¬ containsText "((lambda *args, **kwargs: f((g)(*args, **kwargs))))(1)"
        "(lambda *args, **kwargs: f(g(*args, **kwargs)))(1)" := by
  exact ⟨rfl, by decide⟩

/-- C6 (amended): `f .. g` is rewritten to a lambda applying `f` to the
result of `(g)` — with `g` parenthesized — on the same arguments:
`(lambda *args, **kwargs: f((g)(*args, **kwargs)))`; the compiled body of
`(f..g)(1)` is `((lambda *args, **kwargs: f((g)(*args, **kwargs))))(1)`,
which contains the text `(lambda *args, **kwargs: f((g)(*args,
**kwargs)))`. -/
theorem compose_lowering :
    (∀ f g : String, item_handle f [.two ".." g] =
      .ok ("(lambda *args, **kwargs: " ++ f ++ "((" ++ g ++ ")(*args, **kwargs)))")) ∧
    composeCallBody = .ok "((lambda *args, **kwargs: f((g)(*args, **kwargs))))(1)" ∧
    containsText "((lambda *args, **kwargs: f((g)(*args, **kwargs))))(1)"
      "(lambda *args, **kwargs: f((g)(*args, **kwargs)))" := by
  refine ⟨fun f g => rfl, rfl, by decide⟩

set_option maxRecDepth 100000 in
/-- C7 counterexample: the hash does **not** change whenever the source
text changes: `"plumless"` and `"buckeroo"` are distinct source texts
whose hashes coincide (CRC-32 collision), under the same configuration.
-/
theorem genhash_claim_counterexample :
    genhash "0.3.6" none false false "plumless" =
      genhash "0.3.6" none false false "buckeroo" ∧
    ("plumless" : String) ≠ "buckeroo" ∧
    genhash "0.3.6" none false false "plumless" = "0xdcb9e232" := by
  refine ⟨by decide, by decide, by decide⟩

set_option maxRecDepth 100000 in
/-- C7 (amended): `genhash` is deterministic — it is a pure function of
exactly (compiler version string, target version, autopep8 flag, package
flag, source text), so equal inputs give equal hashes across runs; the
hash generally changes when one of *those* inputs changes (witnessed at a
concrete configuration for the target version, the package flag and the
source text), but it covers neither strict nor minify/no_tco/no_wrap_types,
and distinct source texts can collide since it is a 32-bit CRC. -/
theorem genhash_spec :
    (∀ vs ver ap pkg code, genhash vs ver ap pkg code = genhash vs ver ap pkg code) ∧
    genhash "0.3.6" none false false "plumless" ≠ genhash "0.3.6" (some "2") false false "plumless" ∧
    genhash "0.3.6" none false false "plumless" ≠ genhash "0.3.6" none false true "plumless" ∧
    genhash "0.3.6" none false false "plumless" ≠ genhash "0.3.6" none false false "abc" ∧
    genhash "0.3.6" none false false "plumless" = genhash "0.3.6" none false false "buckeroo" := by
  refine ⟨fun _ _ _ _ _ => rfl, by decide, by decide, by decide, by decide⟩

set_option maxRecDepth 100000 in
/-- C2: for `match [x, *xs] in lst: return x`, the generated matcher
checks `isinstance(..., Sequence)` and `len(...) >= 1`, binds the head
name `x` to element `0` and the rest name `xs` to `list` of the slice
`[1:]` (`tuple` for a `(...)` pattern, shown alongside), and the emitted
block sets `_coconut_match_check` to True exactly under those checks, so
for a non-matching value (any valuation falsifying a check) the flag
stays False. -/
theorem match_sequence_head :
    matchPat matcher_init (.seriesP "[" [.varP "x"] (some "xs")) match_to_var = .ok
      { position := 1, iter_index := 0,
        checkdefs := [([], []),
          (["__coconut__.isinstance(_coconut_match_to, __coconut__.abc.Sequence)",
            "__coconut__.len(_coconut_match_to) >= 1"],
           ["xs = __coconut__.list(_coconut_match_to[1:])",
            "x = _coconut_match_to[0]"])],
        names := [("x", "_coconut_match_to[0]")] } ∧
    matchPat matcher_init (.seriesP "(" [.varP "x"] (some "ys")) match_to_var = .ok
      { position := 1, iter_index := 0,
        checkdefs := [([], []),
          (["__coconut__.isinstance(_coconut_match_to, __coconut__.abc.Sequence)",
            "__coconut__.len(_coconut_match_to) >= 1"],
           ["ys = __coconut__.tuple(_coconut_match_to[1:])",
            "x = _coconut_match_to[0]"])],
        names := [("x", "_coconut_match_to[0]")] } ∧
    match_handle (.seriesP "[" [.varP "x"] (some "xs")) "lst" none (some ["return x\n"]) true
      = .ok ("_coconut_match_check = False\n" ++
             "_coconut_match_to = lst\n" ++
             "if (__coconut__.isinstance(_coconut_match_to, __coconut__.abc.Sequence)) and (__coconut__.len(_coconut_match_to) >= 1):\n" ++
             openindent.toString ++
             "xs = __coconut__.list(_coconut_match_to[1:])\n" ++
             "x = _coconut_match_to[0]\n" ++
             "_coconut_match_check = True\n" ++
             closeindent.toString ++
             "if _coconut_match_check:\n" ++ openindent.toString ++
             "return x\n" ++ closeindent.toString) ∧
    (∀ eval : String → Bool,
      checks_pass eval [([], []),
        (["__coconut__.isinstance(_coconut_match_to, __coconut__.abc.Sequence)",
          "__coconut__.len(_coconut_match_to) >= 1"],
         ["xs = __coconut__.list(_coconut_match_to[1:])",
          "x = _coconut_match_to[0]"])] =
      (eval "__coconut__.isinstance(_coconut_match_to, __coconut__.abc.Sequence)" &&
       eval "__coconut__.len(_coconut_match_to) >= 1")) := by
  refine ⟨rfl, rfl, rfl, ?_⟩
  intro eval
  simp [checks_pass]

/-- C8 counterexample: with the post-processing arguments `parse_exec`
actually passes (`header="file"`, `initial="none"`), the output is not
the bare compiled body: even with every root constant empty, the emitted
text around the body `pass\n` begins with the `# Coconut Header:` banner.
-/
theorem parse_exec_claim_counterexample :
    parse_exec_output ⟨"", "", "", "", ""⟩ none "" "pass\n" =
      .ok (hdr_banner ++ hdr_future ++ hdr_class_pre ++ hdr_class_imports ++
           hdr_abc_univ ++ hdr_class_body ++ hdr_compiled_sep ++ "pass\n") ∧
    parse_exec_output ⟨"", "", "", "", ""⟩ none "" "pass\n" ≠ .ok "pass\n" := by
  constructor
  · rfl
  · intro h
    have h2 : (hdr_banner ++ "" ++ hdr_future ++ "" ++ hdr_class_pre ++ "" ++
        hdr_class_imports ++ hdr_abc_univ ++ hdr_class_body ++ hdr_compiled_sep ++
        ("pass\n" : String)) = "pass\n" := by
      injection h
    have h3 := congrArg String.length h2
    simp only [String.length_append] at h3
    have hsep : hdr_compiled_sep.length = 83 := by decide
    have hpass : ("pass\n" : String).length = 5 := by decide
    omega

/-- C8 (amended): `parse_exec` omits only the *initial* header (the
shebang/encoding/hash block: its `initial` argument is `"none"`, whose
header is empty), but it does prepend the nonempty `"file"` runtime
header: for every root-constant set, docstring, body and supported target
version, the output is `docstring ++ fileheader ++ body` where
`fileheader` is `getheader("file", version)`, a nonempty text. -/
theorem parse_exec_prepends_file_header (rc : RootConsts) (docstring body : String)
    (version : Option String)
    (hv : version = none ∨ version = some "2" ∨ version = some "3") :
    getheader rc "none" version none = .ok "" ∧
    ∃ hdr, getheader rc "file" version none = .ok hdr ∧ hdr ≠ "" ∧
      parse_exec_output rc version docstring body = .ok (docstring ++ hdr ++ body) := by
  rcases hv with rfl | rfl | rfl
  all_goals {
    refine ⟨rfl, _, rfl, ?_, rfl⟩
    intro h
    have h3 := congrArg String.length h
    simp only [String.length_append] at h3
    have hsep : hdr_compiled_sep.length = 83 := by decide
    have hempty : ("" : String).length = 0 := rfl
    omega
  }

/-- C8 witness: the amended statement at the universal target with empty
root constants and body `pass\n`. -/
theorem parse_exec_prepends_file_header_witness :
    getheader ⟨"", "", "", "", ""⟩ "none" none none = .ok "" ∧
    ∃ hdr, getheader ⟨"", "", "", "", ""⟩ "file" none none = .ok hdr ∧ hdr ≠ "" ∧
      parse_exec_output ⟨"", "", "", "", ""⟩ none "" "pass\n" = .ok ("" ++ hdr ++ "pass\n") :=
  parse_exec_prepends_file_header ⟨"", "", "", "", ""⟩ "" "pass\n" none (Or.inl rfl)

/-- `adjust {2} 3 = 4`: derived from the fixed-point equation. -/
theorem adjust_two_three : adjust ({2} : Finset ℕ) 3 = 4 := by
  have hA := adjust_eq ({2} : Finset ℕ) (by decide) 3
  set A := adjust ({2} : Finset ℕ) 3 with hAdef
  have hcard_le : (({2} : Finset ℕ).filter (fun s => s ≤ A)).card ≤ 1 := by
    have hsub : (({2} : Finset ℕ).filter (fun s => s ≤ A)) ⊆ ({2} : Finset ℕ) :=
      Finset.filter_subset _ _
    have := Finset.card_le_card hsub
    simpa using this
  have hA4 : A ≤ 4 := by omega
  have hA3 : 3 ≤ A := by omega
  interval_cases A
  · exfalso
    rw [show (({2} : Finset ℕ).filter (fun s => s ≤ 3)) = {2} from by decide] at hA
    simp at hA
  · rfl

/-- C9: a dedent to an indentation width never previously opened (the
input dedents `return 2` to width 2 while only 0 and 4 were opened) fails
with the `illegal dedent to unused indentation level` SyntaxError, and
for every SkipSet the reported line number is `adjust(3)` — the original
source line remapped through the SkipSet — not the line number 3 of the
processed text: with SkipSet `{2}` the reported line is 4. -/
theorem ind_proc_illegal_dedent :
    (∀ skips : Finset ℕ,
      ind_proc false skips none "if x:\n    return 1\n  return 2" =
        .error (.syntaxErr "illegal dedent to unused indentation level"
          (some (adjust skips 3)))) ∧
    adjust ({2} : Finset ℕ) 3 = 4 ∧ (4 : ℕ) ≠ 3 :=
  ⟨fun _ => rfl, adjust_two_three, by decide⟩

theorem runBal_append (a : List Char) : ∀ (z : ℤ) (b : List Char),
    runBal z (a ++ b) = (runBal z a).bind (fun w => runBal w b) := by
  induction a with
  | nil => intro z b; simp [runBal]
  | cons c rest ih =>
    intro z b
    by_cases h : sentStep z c < 0
    · simp [runBal, h]
    · simp [runBal, h, ih]

theorem runBal_nonneg {z : ℤ} (hz : 0 ≤ z) :
    ∀ {l : List Char} {w : ℤ}, runBal z l = some w → 0 ≤ w := by
  intro l
  induction l generalizing z with
  | nil =>
    intro w h
    simp [runBal] at h
    omega
  | cons c rest ih =>
    intro w h
    by_cases hc : sentStep z c < 0
    · simp [runBal, hc] at h
    · simp only [runBal, if_neg hc] at h
      exact ih (by omega) h

theorem runBal_counts : ∀ (l : List Char) (z w : ℤ), runBal z l = some w →
    w = z + l.count openindent - l.count closeindent := by
  intro l
  induction l with
  | nil => intro z w h; simp [runBal] at h; simp [h]
  | cons c rest ih =>
    intro z w h
    by_cases hc : sentStep z c < 0
    · simp [runBal, hc] at h
    · simp only [runBal, if_neg hc] at h
      have := ih (sentStep z c) w h
      by_cases h1 : c = openindent
      · subst h1
        have hstep : sentStep z openindent = z + 1 := by
          simp [sentStep]
        have hne : (openindent == closeindent) = false := by decide
        rw [hstep] at this
        simp [List.count_cons, hne] at this ⊢
        omega
      · by_cases h2 : c = closeindent
        · subst h2
          have hstep : sentStep z closeindent = z - 1 := by
            have : closeindent ≠ openindent := by decide
            simp [sentStep, this]
          have hne : (closeindent == openindent) = false := by decide
          rw [hstep] at this
          simp [List.count_cons, hne] at this ⊢
          omega
        · have hstep : sentStep z c = z := by simp [sentStep, h1, h2]
          rw [hstep] at this
          simp [List.count_cons, h1, h2] at this ⊢
          omega

theorem runBal_sentFree {l : List Char} (hl : sentFree l) :
    ∀ {z : ℤ}, 0 ≤ z → runBal z l = some z := by
  induction l with
  | nil => intro z _; rfl
  | cons c rest ih =>
    intro z hz
    obtain ⟨ho, hc⟩ := hl
    have h1 : c ≠ openindent := fun h => ho (by simp [h])
    have h2 : c ≠ closeindent := fun h => hc (by simp [h])
    have hstep : sentStep z c = z := by simp [sentStep, h1, h2]
    simp only [runBal, hstep, if_neg (by omega : ¬ z < 0)]
    exact ih ⟨fun h => ho (by simp [h]), fun h => hc (by simp [h])⟩ hz

theorem runBal_prefix {z w : ℤ} {p q : List Char}
    (h : runBal z (p ++ q) = some w) : ∃ w', runBal z p = some w' := by
  rw [runBal_append] at h
  cases hp : runBal z p with
  | none => rw [hp] at h; simp at h
  | some w' => exact ⟨w', rfl⟩

theorem runBal_cons_nonsent {z : ℤ} (c : Char) (rest : List Char)
    (h1 : c ≠ openindent) (h2 : c ≠ closeindent) (hz : 0 ≤ z) :
    runBal z (c :: rest) = runBal z rest := by
  have hstep : sentStep z c = z := by simp [sentStep, h1, h2]
  simp [runBal, hstep, if_neg (by omega : ¬ z < 0)]

theorem runBal_replicate_close : ∀ (k : ℕ) (z : ℤ), (k : ℤ) ≤ z →
    runBal z (List.replicate k closeindent) = some (z - k) := by
  intro k
  induction k with
  | zero => intro z _; simp [runBal]
  | succ n ih =>
    intro z hk
    have hstep : sentStep z closeindent = z - 1 := by simp [sentStep, openindent, closeindent]
    rw [List.replicate_succ]
    simp only [runBal, hstep]
    rw [if_neg (by push_cast at hk; omega)]
    have := ih (z - 1) (by push_cast at hk ⊢; omega)
    rw [this]
    congr 1
    push_cast
    ring

theorem runBal_replicate_open : ∀ (k : ℕ) (z : ℤ), 0 ≤ z →
    runBal z (List.replicate k openindent) = some (z + k) := by
  intro k
  induction k with
  | zero => intro z _; simp [runBal]
  | succ n ih =>
    intro z hz
    have hstep : sentStep z openindent = z + 1 := by simp [sentStep]
    rw [List.replicate_succ]
    simp only [runBal, hstep]
    rw [if_neg (by omega)]
    rw [ih (z + 1) (by omega)]
    congr 1
    push_cast
    ring

theorem runBal_singleton_open (z : ℤ) (hz : 0 ≤ z) :
    runBal z [openindent] = some (z + 1) := by
  have hstep : sentStep z openindent = z + 1 := by simp [sentStep]
  simp [runBal, hstep, if_neg (by omega : ¬ z + 1 < 0)]

theorem pyJoin_data : ∀ ls : List String, (pyJoin "\n" ls).data = joinData ls
  | [] => rfl
  | [l] => rfl
  | l :: m :: rest => by
    show ((l ++ "\n") ++ pyJoin "\n" (m :: rest)).data = l.data ++ '\n' :: joinData (m :: rest)
    have h1 : ((l ++ "\n") ++ pyJoin "\n" (m :: rest)).data
        = (l.data ++ ['\n']) ++ (pyJoin "\n" (m :: rest)).data := rfl
    rw [h1, pyJoin_data (m :: rest), List.append_assoc]
    rfl

theorem joinData_concat : ∀ (ls : List String) (x : String),
    joinData (ls ++ [x]) = if ls.isEmpty then x.data else joinData ls ++ '\n' :: x.data := by
  intro ls
  induction ls with
  | nil => intro x; simp [joinData]
  | cons l rest ih =>
    intro x
    match rest with
    | [] => simp [joinData]
    | m :: rest' =>
      have := ih x
      simp only [List.isEmpty_cons] at this ⊢
      show (l.data ++ '\n' :: joinData ((m :: rest') ++ [x])) =
        (l.data ++ '\n' :: joinData (m :: rest')) ++ '\n' :: x.data
      rw [this]
      simp

theorem pyRstrip_data (s : String) : (pyRstrip s).data = rstripData s.data := rfl

theorem beforeHash_data (s : String) :
    (beforeHash s).data = s.data.takeWhile (fun ch => ch ≠ '#') := rfl

/-- `dropWhile` leaves a list alone whose head fails the predicate. -/
theorem dropWhile_eq_self_of_head (p : Char → Bool) (l : List Char)
    (h : ∀ a, l.head? = some a → ¬ p a) : l.dropWhile p = l := by
  cases l with
  | nil => rfl
  | cons a rest =>
    have := h a rfl
    simp [List.dropWhile_cons, this]

/-- `rstrip` of a string with a whitespace-free prefix strips only the
suffix. -/
theorem rstripData_append (pre t : List Char) (hpre : ∀ a ∈ pre, ¬ pyIsSpace a) :
    rstripData (pre ++ t) = pre ++ rstripData t := by
  unfold rstripData
  rw [List.reverse_append, List.dropWhile_append]
  by_cases he : (t.reverse.dropWhile pyIsSpace).isEmpty
  · rw [if_pos he]
    have hdp : pre.reverse.dropWhile pyIsSpace = pre.reverse := by
      refine dropWhile_eq_self_of_head _ _ ?_
      intro a ha
      have ham : a ∈ pre.reverse := by
        cases hrev : pre.reverse with
        | nil => rw [hrev] at ha; simp at ha
        | cons x xs =>
          rw [hrev] at ha
          simp only [List.head?_cons, Option.some.injEq] at ha
          simp [← ha]
      exact hpre a (List.mem_reverse.mp ham)
    rw [hdp]
    have ht : t.reverse.dropWhile pyIsSpace = [] := by
      simpa [List.isEmpty_iff] using he
    rw [ht]
    simp
  · rw [if_neg he]
    simp

/-- Sentinel characters and `#` facts used in the decompositions. -/
theorem sent_not_space : ¬ pyIsSpace openindent ∧ ¬ pyIsSpace closeindent := by decide

theorem sent_not_hash :
    (openindent ≠ '#') ∧ (closeindent ≠ '#') := by decide

theorem sentFree_sub {l l' : List Char} (hsub : ∀ c ∈ l', c ∈ l)
    (h : sentFree l) : sentFree l' :=
  ⟨fun hc => h.1 (hsub _ hc), fun hc => h.2 (hsub _ hc)⟩

theorem sentFree_append {a b : List Char} (ha : sentFree a) (hb : sentFree b) :
    sentFree (a ++ b) := by
  constructor
  · intro h
    rcases List.mem_append.mp h with h | h
    exacts [ha.1 h, hb.1 h]
  · intro h
    rcases List.mem_append.mp h with h | h
    exacts [ha.2 h, hb.2 h]

/-- The `last = new[-1].split("#", 1)[0].rstrip()` computation keeps the
sentinel prefix of a well-formed line intact and only trims its
sentinel-free text. -/
theorem g_decomp (c o : ℕ) (s : List Char) (hs : sentFree s) :
    ∃ s', rstripData (List.takeWhile (fun ch => ch ≠ '#')
        (List.replicate c closeindent ++ (List.replicate o openindent ++ s))) =
      List.replicate c closeindent ++ (List.replicate o openindent ++ s') ∧
      sentFree s' := by
  have hpre1 : ∀ x ∈ List.replicate c closeindent, (fun ch => decide (ch ≠ '#')) x = true := by
    intro x hx
    rw [List.eq_of_mem_replicate hx]
    decide
  have hpre2 : ∀ x ∈ List.replicate o openindent, (fun ch => decide (ch ≠ '#')) x = true := by
    intro x hx
    rw [List.eq_of_mem_replicate hx]
    decide
  rw [List.takeWhile_append_of_pos hpre1, List.takeWhile_append_of_pos hpre2]
  have hns1 : ∀ a ∈ List.replicate c closeindent, ¬ pyIsSpace a := by
    intro a ha
    rw [List.eq_of_mem_replicate ha]
    exact sent_not_space.2
  have hns2 : ∀ a ∈ List.replicate o openindent, ¬ pyIsSpace a := by
    intro a ha
    rw [List.eq_of_mem_replicate ha]
    exact sent_not_space.1
  rw [show List.replicate c closeindent ++
      (List.replicate o openindent ++ List.takeWhile (fun ch => ch ≠ '#') s) =
      (List.replicate c closeindent ++ List.replicate o openindent) ++
        List.takeWhile (fun ch => ch ≠ '#') s from by simp]
  rw [rstripData_append _ _ (by
    intro a ha
    rcases List.mem_append.mp ha with h | h
    exacts [hns1 a h, hns2 a h])]
  refine ⟨rstripData (List.takeWhile (fun ch => ch ≠ '#') s), by simp, ?_⟩
  refine sentFree_sub ?_ hs
  intro ch hch
  unfold rstripData at hch
  have h1 : ch ∈ List.dropWhile pyIsSpace (List.takeWhile (fun ch => ch ≠ '#') s).reverse :=
    List.mem_reverse.mp hch
  have h2 : ch ∈ (List.takeWhile (fun ch => ch ≠ '#') s).reverse :=
    (List.dropWhile_sublist _).subset h1
  exact (List.takeWhile_sublist _).subset (List.mem_reverse.mp h2)

theorem joinData_concat' (ls : List String) (x : String) :
    joinData (ls ++ [x]) =
      (if ls.isEmpty then [] else joinData ls ++ ['\n']) ++ x.data := by
  rw [joinData_concat]
  by_cases h : ls.isEmpty
  · simp [h]
  · simp only [h, if_false]
    simp

/-- Core balance-replacement step: replacing the sentinel-free text after
a line's sentinel prefix does not change the running balance. -/
theorem runBal_through_decomp (P : List Char) (c o : ℕ) (s tail : List Char)
    (hs : sentFree s) (htail : sentFree tail) (L : ℤ)
    (hold : runBal 0 (P ++ (List.replicate c closeindent ++
      (List.replicate o openindent ++ s))) = some L) :
    runBal 0 (P ++ (List.replicate c closeindent ++
      (List.replicate o openindent ++ tail))) = some L := by
  rw [runBal_append] at hold ⊢
  cases hP : runBal 0 P with
  | none => rw [hP] at hold; simp at hold
  | some p =>
    rw [hP] at hold
    simp only [Option.some_bind] at hold ⊢
    rw [runBal_append] at hold ⊢
    cases hC : runBal p (List.replicate c closeindent) with
    | none => rw [hC] at hold; simp at hold
    | some q =>
      rw [hC] at hold
      simp only [Option.some_bind] at hold ⊢
      rw [runBal_append] at hold ⊢
      cases hO : runBal q (List.replicate o openindent) with
      | none => rw [hO] at hold; simp at hold
      | some r =>
        rw [hO] at hold
        simp only [Option.some_bind] at hold ⊢
        have hp : 0 ≤ p := runBal_nonneg (by omega) hP
        have hq : 0 ≤ q := runBal_nonneg hp hC
        have hr : 0 ≤ r := runBal_nonneg hq hO
        have hLs : runBal r s = some r := runBal_sentFree hs hr
        rw [hLs] at hold
        have hL : L = r := by
          have := hold
          simp only [Option.some.injEq] at this
          omega
        rw [runBal_sentFree htail hr, hL]

/-- Appending a line of shape `CLOSE^d OPEN^e body` preserves the
invariant when the stack length changes accordingly. -/
theorem NewLevelsInv_append (new : List String) (levels : List ℕ)
    (hinv : NewLevelsInv new levels) (d e : ℕ) (body : List Char)
    (hbody : sentFree body) (line : String)
    (hline : line.data = List.replicate d closeindent ++
      (List.replicate e openindent ++ body))
    (levels' : List ℕ)
    (hlen : (levels'.length : ℤ) = (levels.length : ℤ) - d + e)
    (hd : (d : ℤ) ≤ (levels.length : ℤ)) :
    NewLevelsInv (new ++ [line]) levels' := by
  obtain ⟨hlines, hbal⟩ := hinv
  constructor
  · intro l hl
    rcases List.mem_append.mp hl with hl | hl
    · exact hlines l hl
    · rw [List.mem_singleton.mp hl]
      exact ⟨d, e, body, hline, hbody⟩
  · rw [joinData_concat', hline]
    set P := (if new.isEmpty then ([] : List Char) else joinData new ++ ['\n']) with hP
    have hPbal : runBal 0 P = some (levels.length : ℤ) := by
      by_cases hne : new.isEmpty
      · have : joinData new = [] := by
          rcases List.isEmpty_iff.mp hne with rfl
          rfl
        rw [this] at hbal
        have : (levels.length : ℤ) = 0 := by
          have := hbal
          simp [runBal] at this
          omega
        rw [hP, if_pos hne, this]
        rfl
      · rw [hP, if_neg hne, runBal_append, hbal]
        simp only [Option.some_bind]
        have hnl1 : ('\n' : Char) ≠ openindent := by decide
        have hnl2 : ('\n' : Char) ≠ closeindent := by decide
        rw [runBal_cons_nonsent _ _ hnl1 hnl2 (by positivity)]
        rfl
    rw [runBal_append, hPbal]
    simp only [Option.bind_some, Option.some_bind]
    rw [runBal_append, runBal_replicate_close d _ hd]
    simp only [Option.bind_some, Option.some_bind]
    rw [runBal_append, runBal_replicate_open e _ (by omega)]
    simp only [Option.bind_some, Option.some_bind]
    rw [runBal_sentFree hbody (by omega)]
    congr 1
    omega

/-- Replacing the last emitted line by one with the same sentinel prefix
and new sentinel-free text preserves the invariant. -/
theorem NewLevelsInv_replaceLast (new : List String) (levels : List ℕ)
    (hinv : NewLevelsInv new levels) (l : String) (hl : new.getLast? = some l)
    (c o : ℕ) (s : List Char)
    (hdecomp : l.data = List.replicate c closeindent ++
      (List.replicate o openindent ++ s)) (hs : sentFree s)
    (newlast : String) (tail : List Char) (htail : sentFree tail)
    (hnl : newlast.data = List.replicate c closeindent ++
      (List.replicate o openindent ++ tail)) :
    NewLevelsInv (new.dropLast ++ [newlast]) levels := by
  obtain ⟨hlines, hbal⟩ := hinv
  have hsplit : new.dropLast ++ [l] = new := List.dropLast_append_getLast? l hl
  constructor
  · intro x hx
    rcases List.mem_append.mp hx with hx | hx
    · exact hlines x ((List.dropLast_sublist new).subset hx)
    · rw [List.mem_singleton.mp hx]
      exact ⟨c, o, tail, hnl, htail⟩
  · rw [joinData_concat', hnl]
    rw [← hsplit, joinData_concat', hdecomp] at hbal
    by_cases hne : new.dropLast.isEmpty
    · rw [if_pos hne] at hbal ⊢
      exact runBal_through_decomp [] c o s tail hs htail _ hbal
    · rw [if_neg hne] at hbal ⊢
      exact runBal_through_decomp _ c o s tail hs htail _ hbal

/-- `StInv` ignores the fields other than `new`/`levels`. -/
theorem StInv_update (st : IndState) (sk : Finset ℕ) (cnt : ℤ)
    (h : StInv st) :
    StInv { st with skips := sk, count := cnt } := h

/-- The tail of the loop body (`ind_proc_indent`) preserves the balance
invariant when the line is sentinel-free and the previous lines are
well-formed. -/
theorem ind_proc_indent_inv (strict : Bool) (selfSkips : Finset ℕ) (st : IndState)
    (line : String) (ln : ℕ) (last : Option String)
    (hline : sentFree line.data) (hinv : StInv st)
    (hlast0 : last = none → st.new = [])
    (hlast : ∀ l', last = some l' → ∃ lraw, st.new.getLast? = some lraw ∧
      l' = pyRstrip (beforeHash lraw))
    (st' : IndState) (h : ind_proc_indent strict selfSkips st line ln last = .ok st') :
    StInv st' := by
  unfold ind_proc_indent at h
  by_cases hcnt : st.count < 0
  · rw [if_pos hcnt] at h
    simp only [bind, Except.bind] at h
    cases hsk : addskip st.skips (adjust selfSkips ln) with
    | error e => rw [hsk] at h; simp at h
    | ok sk =>
      rw [hsk] at h
      simp only [pure, Except.pure, Except.ok.injEq] at h
      subst h
      show NewLevelsInv (st.new.dropLast ++ [last.getD "" ++ " " ++ line]) st.levels
      cases hl : last with
      | none =>
        have hnew := hlast0 hl
        rw [hnew]
        have hlev : (st.levels.length : ℤ) = 0 := by
          have := hinv.2
          rw [hnew] at this
          simp [joinData, runBal] at this
          omega
        constructor
        · intro x hx
          simp only [List.dropLast_nil, List.nil_append, List.mem_singleton] at hx
          subst hx
          refine ⟨0, 0, (' ' :: line.data), by simp, ?_⟩
          exact sentFree_append (a := [' ']) ⟨by decide, by decide⟩ hline
        · show runBal 0 (joinData [("" ++ " " ++ line)]) = some (st.levels.length : ℤ)
          rw [hlev]
          show runBal 0 (' ' :: line.data) = some 0
          rw [runBal_cons_nonsent _ _ (by decide) (by decide) le_rfl]
          exact runBal_sentFree hline le_rfl
      | some l' =>
        obtain ⟨lraw, hraw, hgdef⟩ := hlast l' hl
        obtain ⟨c, o, sdata, hdec, hsfree⟩ := hinv.1 lraw (List.mem_of_mem_getLast? hraw)
        obtain ⟨s', hgd, hs'⟩ := g_decomp c o sdata hsfree
        have hl'data : l'.data = List.replicate c closeindent ++
            (List.replicate o openindent ++ s') := by
          rw [hgdef, pyRstrip_data, beforeHash_data, hdec]
          exact hgd
        refine NewLevelsInv_replaceLast st.new st.levels hinv lraw hraw c o sdata hdec
          hsfree _ (s' ++ (' ' :: line.data))
          (sentFree_append hs' (sentFree_append (a := [' ']) ⟨by decide, by decide⟩ hline)) ?_
        show (l'.data ++ [' ']) ++ line.data = _
        rw [hl'data]
        simp
  · rw [if_neg hcnt] at h
    simp only [bind, Except.bind] at h
    cases hld : leading strict st.indchar line with
    | error e => rw [hld] at h; simp at h
    | ok ci =>
      rw [hld] at h
      simp only [Except.bind] at h
      obtain ⟨check, indchar⟩ := ci
      split at h
      · -- st.current = none
        by_cases hch : check ≠ 0
        · rw [if_pos hch] at h
          simp at h
        · rw [if_neg hch] at h
          simp only [pure, Except.pure, Except.ok.injEq] at h
          subst h
          show NewLevelsInv (st.new ++ [line]) st.levels
          exact NewLevelsInv_append st.new st.levels hinv 0 0 line.data hline line
            (by simp) st.levels (by simp) (by positivity)
      · -- st.current = some current
        rename_i current _
        by_cases hgt : check > current
        · rw [if_pos hgt] at h
          simp only [pure, Except.pure, Except.ok.injEq] at h
          subst h
          show NewLevelsInv (st.new ++ [openindent.toString ++ line])
            (st.levels ++ [current])
          refine NewLevelsInv_append st.new st.levels hinv 0 1 line.data hline _
            ?_ _ ?_ (by positivity)
          · show openindent :: line.data = _
            simp
          · push_cast [List.length_append]
            simp
        · rw [if_neg hgt] at h
          by_cases hmem : check ∈ st.levels
          · rw [if_pos hmem] at h
            simp only [pure, Except.pure, Except.ok.injEq] at h
            subst h
            have hidx : st.levels.indexOf check < st.levels.length :=
              List.indexOf_lt_length.mpr hmem
            set point := st.levels.indexOf check + 1 with hpoint
            have hple : point ≤ st.levels.length := by omega
            show NewLevelsInv
              (st.new ++ [String.mk (List.replicate ((st.levels.drop point).length + 1)
                closeindent) ++ line])
              (st.levels.take point).dropLast
            refine NewLevelsInv_append st.new st.levels hinv
              ((st.levels.drop point).length + 1) 0 line.data hline _ ?_ _ ?_ ?_
            · show List.replicate ((st.levels.drop point).length + 1) closeindent
                ++ line.data = _
              simp
            · have h1 : (st.levels.take point).dropLast.length = point - 1 := by
                simp [List.length_take]
                omega
              have h2 : (st.levels.drop point).length = st.levels.length - point := by
                simp
              rw [h1, h2]
              push_cast [Nat.cast_sub hple, Nat.cast_sub (by omega : 1 ≤ point)]
              omega
            · have h2 : (st.levels.drop point).length = st.levels.length - point := by
                simp
              rw [h2]
              push_cast [Nat.cast_sub hple]
              omega
          · rw [if_neg hmem] at h
            by_cases hne : current ≠ check
            · rw [if_pos hne] at h
              simp at h
            · rw [if_neg hne] at h
              simp only [pure, Except.pure, Except.ok.injEq] at h
              subst h
              show NewLevelsInv (st.new ++ [line]) st.levels
              exact NewLevelsInv_append st.new st.levels hinv 0 0 line.data hline line
                (by simp) st.levels (by simp) (by positivity)

/-- `ind_proc_line_core` preserves the invariant. -/
theorem ind_proc_line_core_inv (strict : Bool) (selfSkips : Finset ℕ)
    (st : IndState) (line : String) (ln : ℕ)
    (hline : sentFree line.data) (hinv : StInv st)
    (st' : IndState) (h : ind_proc_line_core strict selfSkips st line ln = .ok st') :
    StInv st' := by
  unfold ind_proc_line_core at h
  split at h
  · -- st.new.getLast? = some prev
    rename_i prev hprev
    split at h
    · -- blank or comment line
      split at h
      · simp only [pure, Except.pure, Except.ok.injEq] at h
        subst h
        show NewLevelsInv (st.new ++ [line]) st.levels
        exact NewLevelsInv_append st.new st.levels hinv 0 0 line.data hline line
          (by simp) st.levels (by simp) (by positivity)
      · simp only [bind, Except.bind] at h
        cases hsk : addskip st.skips (adjust selfSkips ln) with
        | error e => rw [hsk] at h; simp at h
        | ok sk =>
          rw [hsk] at h
          simp only [pure, Except.pure, Except.ok.injEq] at h
          subst h
          exact hinv
    · -- code line, previous line exists
      simp only [] at h
      by_cases hbs : pyEndsWith (pyRstrip (beforeHash prev)) '\\'
      · rw [if_pos hbs] at h
        split at h
        · simp at h
        · simp only [bind, Except.bind] at h
          cases hsk : addskip st.skips (adjust selfSkips ln) with
          | error e => rw [hsk] at h; simp at h
          | ok sk =>
            rw [hsk] at h
            simp only [pure, Except.pure, Except.ok.injEq] at h
            subst h
            obtain ⟨c, o, sdata, hdec, hsfree⟩ :=
              hinv.1 prev (List.mem_of_mem_getLast? hprev)
            obtain ⟨s', hgd, hs'⟩ := g_decomp c o sdata hsfree
            have hl'data : (pyRstrip (beforeHash prev)).data =
                List.replicate c closeindent ++
                (List.replicate o openindent ++ s') := by
              rw [pyRstrip_data, beforeHash_data, hdec]
              exact hgd
            have hlast' : (pyRstrip (beforeHash prev)).data.getLast? = some '\\' := by
              simpa [pyEndsWith] using hbs
            have hs'ne : s' ≠ [] := by
              intro hempty
              rw [hl'data, hempty, List.append_nil] at hlast'
              have hm : '\\' ∈ List.replicate c closeindent ++
                  List.replicate o openindent :=
                List.mem_of_mem_getLast? hlast'
              rcases List.mem_append.mp hm with hm | hm
              · exact absurd (List.eq_of_mem_replicate hm) (by decide)
              · exact absurd (List.eq_of_mem_replicate hm) (by decide)
            have hdl : (pyRstrip (beforeHash prev)).data.dropLast =
                List.replicate c closeindent ++
                (List.replicate o openindent ++ s'.dropLast) := by
              rw [hl'data, ← List.append_assoc,
                List.dropLast_append_of_ne_nil _ hs'ne, List.append_assoc]
            refine NewLevelsInv_replaceLast st.new st.levels hinv prev hprev c o sdata
              hdec hsfree _ (s'.dropLast ++ (' ' :: line.data))
              (sentFree_append
                (sentFree_sub (fun ch hc => (List.dropLast_sublist s').subset hc) hs')
                (sentFree_append (a := [' ']) ⟨by decide, by decide⟩ hline)) ?_
            show ((String.mk (pyRstrip (beforeHash prev)).data.dropLast ++ " ").data
              ++ line.data) = _
            rw [show (String.mk (pyRstrip (beforeHash prev)).data.dropLast ++ " ").data
                = (pyRstrip (beforeHash prev)).data.dropLast ++ [' '] from rfl, hdl]
            simp
      · rw [if_neg hbs] at h
        refine ind_proc_indent_inv strict selfSkips st line ln
          (some (pyRstrip (beforeHash prev))) hline hinv
          (by intro hx; exact absurd hx (by simp)) ?_ st' h
        intro l' hl'
        simp only [Option.some.injEq] at hl'
        exact ⟨prev, hprev, hl'.symm⟩
  · -- st.new.getLast? = none
    rename_i hnone'
    have hnone : st.new.getLast? = none := by
      cases hg : st.new.getLast? with
      | none => rfl
      | some lraw => exact absurd hg (by simp [hnone'])
    split at h
    · -- blank or comment line
      split at h
      · simp only [pure, Except.pure, Except.ok.injEq] at h
        subst h
        show NewLevelsInv (st.new ++ [line]) st.levels
        exact NewLevelsInv_append st.new st.levels hinv 0 0 line.data hline line
          (by simp) st.levels (by simp) (by positivity)
      · simp only [bind, Except.bind] at h
        cases hsk : addskip st.skips (adjust selfSkips ln) with
        | error e => rw [hsk] at h; simp at h
        | ok sk =>
          rw [hsk] at h
          simp only [pure, Except.pure, Except.ok.injEq] at h
          subst h
          exact hinv
    · simp only [] at h
      refine ind_proc_indent_inv strict selfSkips st line ln none hline hinv
        (fun _ => List.getLast?_eq_none_iff.mp hnone) ?_ st' h
      intro l' hl'
      exact absurd hl' (by simp)

/-- `ind_proc_line` preserves the invariant (the stripped line is still
sentinel-free). -/
theorem ind_proc_line_inv (strict : Bool) (selfSkips : Finset ℕ)
    (st : IndState) (line0 : String) (ln : ℕ)
    (hline0 : sentFree line0.data) (hinv : StInv st)
    (st' : IndState) (h : ind_proc_line strict selfSkips st line0 ln = .ok st') :
    StInv st' := by
  unfold ind_proc_line at h
  simp only [bind, Except.bind] at h
  split at h
  · split at h
    · simp at h
    · simp only [pure, Except.pure] at h
      refine ind_proc_line_core_inv strict selfSkips st (pyRstrip line0) ln ?_ hinv st' h
      refine sentFree_sub ?_ hline0
      intro ch hch
      rw [pyRstrip_data] at hch
      unfold rstripData at hch
      exact List.mem_reverse.mp
        ((List.dropWhile_sublist _).subset (List.mem_reverse.mp hch))
  · simp only [pure, Except.pure] at h
    exact ind_proc_line_core_inv strict selfSkips st line0 ln hline0 hinv st' h

/-- The fold of the loop preserves the invariant. -/
theorem ind_proc_lines_inv (strict : Bool) (selfSkips : Finset ℕ) :
    ∀ (nl : List (ℕ × String)) (st : IndState),
      (∀ p ∈ nl, sentFree p.2.data) → StInv st →
      ∀ st', ind_proc_lines strict selfSkips st nl = .ok st' → StInv st' := by
  intro nl
  induction nl with
  | nil =>
    intro st _ hinv st' h
    simp only [ind_proc_lines, Except.ok.injEq] at h
    subst h
    exact hinv
  | cons p rest ih =>
    intro st hfree hinv st' h
    obtain ⟨ln, line⟩ := p
    simp only [ind_proc_lines, bind, Except.bind] at h
    cases h1 : ind_proc_line strict selfSkips st line ln with
    | error e => rw [h1] at h; simp at h
    | ok st1 =>
      rw [h1] at h
      have hst1 := ind_proc_line_inv strict selfSkips st line ln
        (hfree (ln, line) (List.mem_cons_self _ _)) hinv st1 h1
      exact ih st1 (fun q hq => hfree q (List.mem_cons_of_mem _ hq)) hst1 st' h

/-- Appending one more line to a balanced text. -/
theorem runBal_joinData_concat (new : List String) (L M : ℤ) (x : String)
    (hbal : runBal 0 (joinData new) = some L)
    (hL : 0 ≤ L) (hx : runBal L x.data = some M) :
    runBal 0 (joinData (new ++ [x])) = some M := by
  rw [joinData_concat']
  by_cases hne : new.isEmpty
  · rw [if_pos hne]
    have : joinData new = [] := by
      rcases List.isEmpty_iff.mp hne with rfl
      rfl
    rw [this] at hbal
    have hL0 : L = 0 := by
      simp [runBal] at hbal
      omega
    rw [List.nil_append]
    rw [hL0] at hx
    exact hx
  · rw [if_neg hne, List.append_assoc, runBal_append, hbal]
    simp only [Option.some_bind]
    show runBal L ('\n' :: x.data) = some M
    rw [runBal_cons_nonsent _ _ (by decide) (by decide) hL]
    exact hx

/-- From a zero-to-zero balanced run: equal sentinel counts and the
prefix inequality. -/
theorem runBal_zero_conclusions (l : List Char) (h : runBal 0 l = some 0) :
    l.count openindent = l.count closeindent ∧
    ∀ p q, l = p ++ q → p.count closeindent ≤ p.count openindent := by
  constructor
  · have := runBal_counts l 0 0 h
    omega
  · intro p q hpq
    rw [hpq] at h
    obtain ⟨w, hw⟩ := runBal_prefix h
    have hnn := runBal_nonneg le_rfl hw
    have := runBal_counts p 0 w hw
    omega

/-- Characters of the split lines come from the input. -/
theorem pySplitlinesGo_mem (cs acc : List Char) :
    ∀ l ∈ pySplitlinesGo cs acc, ∀ ch ∈ l.data, ch ∈ cs ∨ ch ∈ acc := by
  induction cs, acc using pySplitlinesGo.induct with
  | case1 => intro l hl; simp [pySplitlinesGo, *] at hl
  | case2 =>
    rename_i acc hne
    intro l hl ch hch
    simp only [pySplitlinesGo] at hl
    rw [if_neg hne] at hl
    rw [List.mem_singleton.mp hl] at hch
    right
    exact List.mem_reverse.mp (by simpa using hch)
  | case3 =>
    rename_i rest acc ih
    intro l hl ch hch
    simp only [pySplitlinesGo] at hl
    rcases List.mem_cons.mp hl with rfl | hl
    · right
      exact List.mem_reverse.mp (by simpa using hch)
    · rcases ih l hl ch hch with h | h
      · left
        simp [h]
      · simp at h
  | case4 =>
    rename_i c rest acc hno hbr ih
    intro l hl ch hch
    rw [pySplitlinesGo.eq_def] at hl
    split at hl
    · rename_i heq
      simp at heq
    · rename_i rest2 heq
      obtain ⟨hc, hr⟩ := List.cons.inj heq
      exact absurd trivial (fun _ => hno rest2 hc hr)
    · rename_i c2 rest2 hno2 heq
      obtain ⟨hc, hr⟩ := List.cons.inj heq
      subst hc
      subst hr
      rw [if_pos hbr] at hl
      rcases List.mem_cons.mp hl with rfl | hl
      · right
        exact List.mem_reverse.mp (by simpa using hch)
      · rcases ih l hl ch hch with h | h
        · left
          simp [h]
        · simp at h
  | case5 =>
    rename_i c rest acc hno hbr ih
    intro l hl ch hch
    rw [pySplitlinesGo.eq_def] at hl
    split at hl
    · rename_i heq
      simp at heq
    · rename_i rest2 heq
      obtain ⟨hc, hr⟩ := List.cons.inj heq
      exact absurd trivial (fun _ => hno rest2 hc hr)
    · rename_i c2 rest2 hno2 heq
      obtain ⟨hc, hr⟩ := List.cons.inj heq
      subst hc
      subst hr
      rw [if_neg hbr] at hl
      rcases ih l hl ch hch with h | h
      · left
        simp [h]
      · rcases List.mem_cons.mp h with rfl | h
        · left
          simp
        · right
          exact h

/-- Lines handed to the fold come from the split input. -/
theorem numberLines_mem (lines : List String) (p : ℕ × String)
    (hp : p ∈ numberLines lines) : p.2 ∈ lines := by
  unfold numberLines at hp
  obtain ⟨q, hq, hfq⟩ := List.mem_map.mp hp
  have := (List.of_mem_zip hq).2
  rw [← hfq]
  exact this

/-- C4 (amended): for every input accepted by the indent processor that
contains no indent-sentinel character itself (the sentinels never occur
in legal source), the output has equally many OPEN and CLOSE sentinels,
and in every prefix the OPEN count is at least the CLOSE count. -/
theorem ind_proc_balance (strict : Bool) (selfSkips : Finset ℕ) (indchar : Option Char)
    (input : String)
    (hfree : openindent ∉ input.data ∧ closeindent ∉ input.data)
    (res : String × Finset ℕ × Option Char)
    (h : ind_proc strict selfSkips indchar input = .ok res) :
    res.1.data.count openindent = res.1.data.count closeindent ∧
    ∀ p q, res.1.data = p ++ q → p.count closeindent ≤ p.count openindent := by
  unfold ind_proc at h
  simp only [bind, Except.bind] at h
  cases hf : ind_proc_lines strict selfSkips (ind_init selfSkips indchar)
      (numberLines (pySplitlines input)) with
  | error e => rw [hf] at h; simp at h
  | ok st =>
    rw [hf] at h
    have hinv : StInv st := by
      refine ind_proc_lines_inv strict selfSkips _ _ ?_ ?_ _ hf
      · intro p hp
        have hmem := numberLines_mem _ p hp
        have hchars : ∀ ch ∈ p.2.data, ch ∈ input.data := by
          intro ch hch
          rcases pySplitlinesGo_mem input.data [] p.2 hmem ch hch with h' | h'
          · exact h'
          · simp at h'
        exact ⟨fun hc => hfree.1 (hchars _ hc), fun hc => hfree.2 (hchars _ hc)⟩
      · exact ⟨by simp [ind_init], by simp [ind_init, joinData, runBal]⟩
    have hout : res.1 = pyJoin "\n"
        (st.new ++ [String.mk (List.replicate st.levels.length closeindent)]) := by
      split at h
      · rename_i heq
        exact absurd heq (by simp)
      · rename_i v heq
        have hv : v = st := by
          injection heq with h2
          exact h2.symm
        subst hv
        split at h
        · split at h
          · simp at h
          · split at h
            · simp at h
            · simp only [pure, Except.pure, Except.ok.injEq] at h
              rw [← h]
        · simp only [pure, Except.pure, Except.ok.injEq] at h
          rw [← h]
    have hbal0 : runBal 0 res.1.data = some 0 := by
      rw [hout, pyJoin_data]
      refine runBal_joinData_concat st.new _ 0 _ hinv.2 (by positivity) ?_
      show runBal (st.levels.length : ℤ)
        (List.replicate st.levels.length closeindent) = some 0
      have := runBal_replicate_close st.levels.length (st.levels.length : ℤ) le_rfl
      simpa using this
    exact runBal_zero_conclusions _ hbal0

/-- C4 counterexample: the indent processor accepts the one-character
input `¶` (a bare CLOSE sentinel) unchanged, so its output has zero OPEN
but one CLOSE sentinel, violating both the count equality and the prefix
property of the claim as stated. -/
theorem ind_proc_balance_claim_counterexample :
    ind_proc false ∅ none "¶" = .ok ("¶\n", ∅, none) ∧
    ("¶\n" : String).data.count openindent = 0 ∧
    ("¶\n" : String).data.count closeindent = 1 ∧
    (0 : ℕ) ≠ 1 := by
  exact ⟨rfl, by decide, by decide, by decide⟩

/-- C4 witness: the amended statement applied to `if x:\n    y\nz`. -/
theorem ind_proc_balance_witness :
    (openindent ∉ ("if x:\n    y\nz" : String).data ∧
      closeindent ∉ ("if x:\n    y\nz" : String).data) ∧
    ind_proc false ∅ none "if x:\n    y\nz" =
      .ok ("if x:\n⁋    y\n¶z\n", ∅, some ' ') ∧
    ("if x:\n⁋    y\n¶z\n" : String).data.count openindent =
      ("if x:\n⁋    y\n¶z\n" : String).data.count closeindent := by
  have h1 : openindent ∉ ("if x:\n    y\nz" : String).data ∧
      closeindent ∉ ("if x:\n    y\nz" : String).data := by decide
  have h2 : ind_proc false ∅ none "if x:\n    y\nz" =
      .ok ("if x:\n⁋    y\n¶z\n", ∅, some ' ') := rfl
  have h3 := ind_proc_balance false ∅ none _ h1 _ h2
  exact ⟨h1, h2, h3.1⟩

-- ===== C3 proof development =====

theorem toDigitsCore_eq_decDigits (n : ℕ) : ∀ (fuel : ℕ) (acc : List Char), n < fuel →
    Nat.toDigitsCore 10 fuel n acc = decDigits n ++ acc := by
  induction n using Nat.strong_induction_on with
  | _ n ih =>
    intro fuel acc h
    match fuel with
    | 0 => omega
    | f + 1 =>
      rw [Nat.toDigitsCore]
      have hmod : n % 10 < 10 := Nat.mod_lt _ (by norm_num)
      have hdm := Nat.div_add_mod n 10
      by_cases h10 : n / 10 = 0
      · rw [if_pos h10, decDigits]
        have hn : n < 10 := by omega
        rw [dif_pos hn, Nat.mod_eq_of_lt hn]
        rfl
      · rw [if_neg h10]
        have hlt : n / 10 < n := Nat.div_lt_self (by omega) (by norm_num)
        have hf : n / 10 < f := by omega
        rw [ih (n / 10) hlt f (Nat.digitChar (n % 10) :: acc) hf]
        conv_rhs => rw [decDigits]
        have hn : ¬ n < 10 := by omega
        rw [dif_neg hn]
        simp

theorem toDigits_eq_decDigits (n : ℕ) : Nat.toDigits 10 n = decDigits n := by
  rw [Nat.toDigits, toDigitsCore_eq_decDigits n (n + 1) [] (by omega), List.append_nil]

theorem digitChar_mem_nums (r : ℕ) (h : r < 10) : Nat.digitChar r ∈ nums := by
  interval_cases r <;> decide

theorem digitChar_val (r : ℕ) (h : r < 10) : (Nat.digitChar r).toNat - 48 = r := by
  interval_cases r <;> decide

theorem decDigits_mem_nums (n : ℕ) : ∀ c ∈ decDigits n, c ∈ nums := by
  induction n using Nat.strong_induction_on with
  | _ n ih =>
    intro c hc
    rw [decDigits] at hc
    by_cases h : n < 10
    · rw [dif_pos h] at hc
      simp only [List.mem_singleton] at hc
      subst hc
      exact digitChar_mem_nums n h
    · rw [dif_neg h] at hc
      rcases List.mem_append.mp hc with h1 | h2
      · exact ih (n / 10) (Nat.div_lt_self (by omega) (by norm_num)) c h1
      · simp only [List.mem_singleton] at h2
        subst h2
        exact digitChar_mem_nums _ (Nat.mod_lt _ (by norm_num))

theorem decDigits_ne_nil (n : ℕ) : decDigits n ≠ [] := by
  rw [decDigits]
  by_cases h : n < 10
  · rw [dif_pos h]; simp
  · rw [dif_neg h]; simp

theorem parseNatDigits_decDigits (n : ℕ) : parseNatDigits (decDigits n) = n := by
  induction n using Nat.strong_induction_on with
  | _ n ih =>
    rw [decDigits]
    by_cases h : n < 10
    · rw [dif_pos h]
      show (0 : ℕ) * 10 + ((Nat.digitChar n).toNat - 48) = n
      rw [digitChar_val n h]
      omega
    · rw [dif_neg h]
      unfold parseNatDigits
      rw [List.foldl_append]
      have hrec := ih (n / 10) (Nat.div_lt_self (by omega) (by norm_num))
      unfold parseNatDigits at hrec
      rw [hrec]
      show n / 10 * 10 + ((Nat.digitChar (n % 10)).toNat - 48) = n
      rw [digitChar_val _ (Nat.mod_lt _ (by norm_num))]
      omega

theorem getElem?_mono {α : Type} {l l' : List α} (h : l <+: l') {i : ℕ} {x : α}
    (hx : l[i]? = some x) : l'[i]? = some x := by
  obtain ⟨t, rfl⟩ := h
  have hi : i < l.length := by
    by_contra hc
    rw [List.getElem?_eq_none (by omega)] at hx
    exact Option.noConfusion hx
  rw [List.getElem?_append_left hi]
  exact hx

theorem piecesDecode_nil (refs : List Ref) : piecesDecode refs [] = [] := rfl

theorem piecesDecode_append (refs : List Ref) (a b : List (List Char)) :
    piecesDecode refs (a ++ b) = piecesDecode refs a ++ piecesDecode refs b := by
  unfold piecesDecode
  rw [List.map_append, List.flatten_append]

theorem decodePiece_marker (refs : List Ref) (ds : List Char) :
    decodePiece refs (strwrapper :: ds ++ [unwrapper]) =
      (match refs[parseNatDigits ds]? with
       | some r => renderStrRef r
       | none => []) := by
  rw [decodePiece]
  rw [show (strwrapper :: ds ++ [unwrapper]).head? = some strwrapper from rfl]
  rw [if_pos rfl]
  rw [show (strwrapper :: ds ++ [unwrapper]).tail = ds ++ [unwrapper] from rfl]
  rw [List.dropLast_concat]

theorem decodePiece_plain (refs : List Ref) (c : Char) (h : c ≠ strwrapper) :
    decodePiece refs [c] = [c] := by
  rw [decodePiece]
  rw [if_neg (by
    rw [show [c].head? = some c from rfl]
    intro hc
    exact h (Option.some_injective _ hc))]

theorem PieceOK_mono {refs refs' : List Ref} {p : List Char} (h : refs <+: refs')
    (hp : PieceOK refs p) :
    PieceOK refs' p ∧ decodePiece refs' p = decodePiece refs p := by
  cases hp with
  | plain c hhash hwrap hbs =>
      refine ⟨.plain c hhash hwrap hbs, ?_⟩
      rw [decodePiece_plain refs' c hwrap, decodePiece_plain refs c hwrap]
  | marker i text strchar multiline hi =>
      refine ⟨.marker i text strchar multiline (getElem?_mono h hi), ?_⟩
      rw [decodePiece_marker, decodePiece_marker, parseNatDigits_decDigits,
        hi, getElem?_mono h hi]

theorem piecesDecode_mono {refs refs' : List Ref} (h : refs <+: refs')
    (pieces : List (List Char)) (hp : ∀ p ∈ pieces, PieceOK refs p) :
    piecesDecode refs' pieces = piecesDecode refs pieces := by
  unfold piecesDecode
  congr 1
  apply List.map_congr_left
  intro p hmem
  exact (PieceOK_mono h (hp p hmem)).2

theorem pyIndex_some_get : ∀ (refs : List Ref) (r : Ref) (i : ℕ),
    pyIndex refs r = some i → refs[i]? = some r
  | [], r, i, h => by simp [pyIndex] at h
  | x :: xs, r, i, h => by
      rw [pyIndex] at h
      by_cases hx : x = r
      · rw [if_pos hx] at h
        cases h
        simp [hx]
      · rw [if_neg hx] at h
        cases hmap : pyIndex xs r with
        | none => rw [hmap] at h; simp at h
        | some j =>
            rw [hmap] at h
            have h' : j + 1 = i := Option.some_injective _ h
            subst h'
            simpa using pyIndex_some_get xs r j hmap

theorem add_ref_prefix (refs : List Ref) (r : Ref) : refs <+: (add_ref refs r).1 := by
  unfold add_ref
  cases pyIndex refs r with
  | none => exact ⟨[r], rfl⟩
  | some i => exact List.prefix_refl _

theorem add_ref_get (refs : List Ref) (r : Ref) :
    (add_ref refs r).1[(add_ref refs r).2]? = some r := by
  unfold add_ref
  cases h : pyIndex refs r with
  | none => simp
  | some i => exact pyIndex_some_get refs r i h

/-- `wrap_str` appends at most one ref and returns the marker
`strwrapper ++ decimal index ++ unwrapper`. -/
theorem wrap_str_marker (refs : List Ref) (text : String) (q : Char) (ml : Bool) :
    (wrap_str refs text q ml).2.data =
      strwrapper :: decDigits ((add_ref refs (.tuple text q ml)).2) ++ [unwrapper] ∧
    refs <+: (wrap_str refs text q ml).1 ∧
    (wrap_str refs text q ml).1[(add_ref refs (.tuple text q ml)).2]? =
      some (.tuple text q ml) := by
  refine ⟨?_, add_ref_prefix refs _, add_ref_get refs _⟩
  show (strwrapper.toString ++ toString (add_ref refs (.tuple text q ml)).2 ++
      unwrapper.toString).data = _
  have : (toString (add_ref refs (.tuple text q ml)).2).data =
      decDigits ((add_ref refs (.tuple text q ml)).2) := by
    show (Nat.toDigits 10 _).asString.data = _
    rw [toDigits_eq_decDigits]
    rfl
  simp only [String.data_append, this]
  rfl

/-- A marker piece is well-formed and decodes to the stored quotes. -/
theorem marker_pieceOK (refs' : List Ref) (i : ℕ) (text : String) (q : Char) (ml : Bool)
    (hi : refs'[i]? = some (.tuple text q ml)) :
    PieceOK refs' (strwrapper :: decDigits i ++ [unwrapper]) ∧
    decodePiece refs' (strwrapper :: decDigits i ++ [unwrapper]) =
      renderStrRef (.tuple text q ml) := by
  refine ⟨.marker i text q ml hi, ?_⟩
  rw [decodePiece_marker, parseNatDigits_decDigits, hi]

theorem str_repl_go_nil (refs : List Ref) (out : List Char) (st : ReplSt) :
    str_repl_go refs [] out st = .ok (out, st) := rfl

theorem str_repl_go_cons (refs : List Ref) (c : Char) (l out : List Char) (st : ReplSt)
    (out' : List Char) (st' : ReplSt)
    (hc : str_repl_char refs out st c = .ok (out', st')) :
    str_repl_go refs (c :: l) out st = str_repl_go refs l out' st' := by
  rw [str_repl_go, hc]
  rfl

theorem str_repl_char_digit (refs : List Ref) (out ds0 : List Char) (c : Char)
    (hc : c ∈ nums) :
    str_repl_char refs out (.inString ds0) c = .ok (out, .inString (ds0 ++ [c])) := by
  simp only [str_repl_char]
  rw [if_pos hc]

theorem str_repl_go_digits (refs : List Ref) :
    ∀ (ds : List Char), (∀ c ∈ ds, c ∈ nums) →
    ∀ (rest out ds0 : List Char),
    str_repl_go refs (ds ++ rest) out (.inString ds0) =
      str_repl_go refs rest out (.inString (ds0 ++ ds))
  | [], _, rest, out, ds0 => by simp
  | c :: cs, h, rest, out, ds0 => by
      have hc : c ∈ nums := h c (by simp)
      rw [List.cons_append,
        str_repl_go_cons refs c (cs ++ rest) out _ _ _ (str_repl_char_digit refs out ds0 c hc),
        str_repl_go_digits refs cs (fun d hd => h d (by simp [hd])) rest out (ds0 ++ [c])]
      simp

theorem str_repl_char_open (refs : List Ref) (out : List Char) :
    str_repl_char refs out .scanning strwrapper = .ok (out, .inString []) := rfl

theorem str_repl_char_close (refs : List Ref) (out : List Char) (i : ℕ)
    (text : String) (q : Char) (ml : Bool)
    (hi : refs[i]? = some (.tuple text q ml)) :
    str_repl_char refs out (.inString (decDigits i)) unwrapper =
      .ok (out ++ renderStrRef (.tuple text q ml), .scanning) := by
  simp only [str_repl_char]
  rw [if_neg (by decide), if_pos (by exact ⟨by trivial, decDigits_ne_nil i⟩),
    parseNatDigits_decDigits, hi]
  simp [renderStrRef, List.append_assoc]

theorem str_repl_char_plain (refs : List Ref) (out : List Char) (c : Char)
    (h1 : c ≠ '#') (h2 : c ≠ strwrapper) :
    str_repl_char refs out .scanning c = .ok (out ++ [c], .scanning) := by
  simp only [str_repl_char]
  rw [if_neg h1, if_neg h2]

theorem str_repl_go_marker (refs : List Ref) (i : ℕ) (text : String) (q : Char)
    (ml : Bool) (hi : refs[i]? = some (.tuple text q ml)) (out rest : List Char) :
    str_repl_go refs ((strwrapper :: decDigits i ++ [unwrapper]) ++ rest) out .scanning =
      str_repl_go refs rest (out ++ renderStrRef (.tuple text q ml)) .scanning := by
  rw [List.cons_append, List.cons_append]
  rw [str_repl_go_cons refs strwrapper _ out _ _ _ (str_repl_char_open refs out)]
  rw [List.append_assoc]
  rw [str_repl_go_digits refs (decDigits i) (decDigits_mem_nums i)]
  rw [List.nil_append, List.singleton_append]
  rw [str_repl_go_cons refs unwrapper rest out _ _ _
    (str_repl_char_close refs out i text q ml hi)]

theorem str_repl_go_pieces (refs : List Ref) :
    ∀ (pieces : List (List Char)), (∀ p ∈ pieces, PieceOK refs p) →
    ∀ (out : List Char),
    str_repl_go refs pieces.flatten out .scanning =
      .ok (out ++ piecesDecode refs pieces, .scanning)
  | [], _, out => by simp [piecesDecode_nil, str_repl_go_nil]
  | p :: ps, h, out => by
      have hp : PieceOK refs p := h p (by simp)
      have hps : ∀ q ∈ ps, PieceOK refs q := fun q hq => h q (by simp [hq])
      rw [List.flatten_cons]
      have hdec : piecesDecode refs (p :: ps) = decodePiece refs p ++ piecesDecode refs ps := rfl
      cases hp with
      | plain c hhash hwrap hbs =>
          rw [List.singleton_append,
            str_repl_go_cons refs c _ out _ _ _ (str_repl_char_plain refs out c hhash hwrap),
            str_repl_go_pieces refs ps hps (out ++ [c]), hdec,
            decodePiece_plain refs c hwrap]
          simp
      | marker i text q ml hi =>
          rw [str_repl_go_marker refs i text q ml hi out,
            str_repl_go_pieces refs ps hps _, hdec,
            (marker_pieceOK refs i text q ml hi).2]
          simp

/-- `str_repl` on a joined list of well-formed pieces decodes each piece. -/
theorem str_repl_pieces (refs : List Ref) (pieces : List (List Char))
    (h : ∀ p ∈ pieces, PieceOK refs p) :
    str_repl refs (String.mk pieces.flatten) =
      .ok (String.mk (piecesDecode refs pieces)) := by
  unfold str_repl
  rw [show (String.mk pieces.flatten).data = pieces.flatten from rfl,
    str_repl_go_pieces refs pieces h []]
  rfl

theorem flatten_map_singleton : ∀ l : List Char, (l.map (fun c => [c])).flatten = l
  | [] => rfl
  | c :: cs => by
      rw [List.map_cons, List.flatten_cons, flatten_map_singleton cs]
      rfl

theorem string_mk_data (s : String) : String.mk s.data = s := rfl

/-- On backslash-free input, the `passthrough_proc` loop copies every
character through unchanged. -/
theorem passthrough_proc_go_id (selfSkips : Finset ℕ) :
    ∀ (l : List Char), '\\' ∉ l →
    ∀ (ln : ℕ) (refs : List Ref) (skips : Finset ℕ) (out : List (List Char)),
    passthrough_proc_go selfSkips l ln refs skips out .scanning =
      .ok (refs, skips, out ++ l.map (fun c => [c]), .scanning)
  | [], _, ln, refs, skips, out => by simp [passthrough_proc_go]
  | c :: cs, h, ln, refs, skips, out => by
      have hc : c ≠ '\\' := fun hc => h (hc ▸ List.mem_cons_self c cs)
      have hcs : '\\' ∉ cs := fun hm => h (List.mem_cons_of_mem c hm)
      rw [passthrough_proc_go]
      simp only [if_neg hc]
      rw [passthrough_proc_go_id selfSkips cs hcs _ refs skips (out ++ [[c]])]
      simp

/-- **Identity of S3 on backslash-free text**: `passthrough_proc` leaves
refs, skips and the string unchanged when the input has no backslash. -/
theorem passthrough_proc_id (selfSkips : Finset ℕ) (refs : List Ref) (input : String)
    (h : '\\' ∉ input.data) :
    passthrough_proc selfSkips refs input = .ok (refs, selfSkips, input) := by
  unfold passthrough_proc
  rw [passthrough_proc_go_id selfSkips input.data h 1 refs selfSkips []]
  simp only [List.nil_append, bind, Except.bind]
  rw [if_pos trivial, flatten_map_singleton]

/-- On backslash-free input, the `passthrough_repl` loop copies every
character through unchanged. -/
theorem passthrough_repl_go_id (refs : List Ref) :
    ∀ (l : List Char), '\\' ∉ l → ∀ (out : List Char),
    passthrough_repl_go refs l out none = .ok (out ++ l)
  | [], _, out => by simp [passthrough_repl_go]
  | c :: cs, h, out => by
      have hc : c ≠ '\\' := fun hc => h (hc ▸ List.mem_cons_self c cs)
      have hcs : '\\' ∉ cs := fun hm => h (List.mem_cons_of_mem c hm)
      rw [passthrough_repl_go]
      have hchar : passthrough_repl_char refs out none c = .ok (out ++ [c], none) := by
        simp only [passthrough_repl_char]
        rw [if_neg hc]
      rw [hchar]
      show passthrough_repl_go refs cs (out ++ [c]) none = .ok (out ++ c :: cs)
      rw [passthrough_repl_go_id refs cs hcs (out ++ [c])]
      simp

/-- `passthrough_repl` is the identity on backslash-free text. -/
theorem passthrough_repl_id (refs : List Ref) (input : String)
    (h : '\\' ∉ input.data) :
    passthrough_repl refs input = .ok input := by
  unfold passthrough_repl
  rw [passthrough_repl_go_id refs input.data h []]
  simp only [List.nil_append, bind, Except.bind]

/-- A well-formed piece contains no backslash. -/
theorem PieceOK_noBS {refs : List Ref} {p : List Char} (hp : PieceOK refs p) :
    '\\' ∉ p := by
  cases hp with
  | plain c _ _ hbs =>
      intro hm
      rcases List.mem_singleton.mp hm with rfl
      exact hbs rfl
  | marker i text q ml _ =>
      intro hm
      rcases List.mem_cons.mp hm with heq | hm'
      · exact absurd heq (by decide)
      · rcases List.mem_append.mp hm' with hd | hu
        · exact absurd (decDigits_mem_nums i _ hd) (by decide)
        · exact absurd (List.mem_singleton.mp hu) (by decide)

theorem flatten_noBS (pieces : List (List Char)) {refs : List Ref}
    (h : ∀ p ∈ pieces, PieceOK refs p) : '\\' ∉ pieces.flatten := by
  intro hm
  rcases List.mem_flatten.mp hm with ⟨p, hp, hcp⟩
  exact PieceOK_noBS (h p hp) hcp

theorem strwrapper_mem_holds : strwrapper ∈ holds := by decide

/-- One scanning step extends the decoded output by exactly the scanned
character. -/
theorem str_proc_scan_inv (refs : List Ref) (skips : Finset ℕ)
    (out : List (List Char)) (c : Char) (hhash : c ≠ '#') (hbs : c ≠ '\\')
    (hpieces : ∀ p ∈ out, PieceOK refs p) :
    SPOK (str_proc_scan ⟨refs, skips, out, none, none⟩ c) ∧
    (str_proc_scan ⟨refs, skips, out, none, none⟩ c).refs = refs ∧
    (str_proc_scan ⟨refs, skips, out, none, none⟩ c).skips = skips ∧
    piecesDecode refs (str_proc_scan ⟨refs, skips, out, none, none⟩ c).out ++
        pendingText (str_proc_scan ⟨refs, skips, out, none, none⟩ c).found
          (str_proc_scan ⟨refs, skips, out, none, none⟩ c).hold =
      piecesDecode refs out ++ [c] := by
  unfold str_proc_scan
  rw [if_neg hhash]
  by_cases hq : c ∈ holds
  · rw [if_pos hq]
    refine ⟨⟨hpieces, ?_, Or.inr rfl, ?_, ?_⟩, rfl, rfl, ?_⟩
    · intro f hf
      cases hf
      exact ⟨c, 1, hq, le_refl 1, rfl⟩
    · intro contents start stop hh
      cases hh
    · intro contents hh
      cases hh
    · show piecesDecode refs out ++ ([c] ++ []) = piecesDecode refs out ++ [c]
      simp
  · rw [if_neg hq]
    have hwrap : c ≠ strwrapper := fun hc => hq (hc ▸ strwrapper_mem_holds)
    refine ⟨⟨?_, ?_, Or.inl rfl, ?_, ?_⟩, rfl, rfl, ?_⟩
    · intro p hp
      rcases List.mem_append.mp hp with hold | hnew
      · exact hpieces p hold
      · rcases List.mem_singleton.mp hnew with rfl
        exact .plain c hhash hwrap hbs
    · intro f hf
      cases hf
    · intro contents start stop hh
      cases hh
    · intro contents hh
      cases hh
    · show piecesDecode refs (out ++ [[c]]) ++ [] = piecesDecode refs out ++ [c]
      rw [piecesDecode_append, List.append_nil]
      show piecesDecode refs out ++ (decodePiece refs [c] ++ []) = _
      rw [decodePiece_plain refs c hwrap, List.append_nil]

theorem holds_cases {q : Char} (h : q ∈ holds) : q = '\'' ∨ q = '"' := by
  simpa [holds] using h

theorem holds_ne_bs {q : Char} (h : q ∈ holds) : q ≠ '\\' := by
  rcases holds_cases h with rfl | rfl <;> decide

theorem holds_ne_nl {q : Char} (h : q ∈ holds) : q ≠ '\n' := by
  rcases holds_cases h with rfl | rfl <;> decide

theorem count_end_zero {l : List Char} {c : Char} (h : c ∉ l) : count_end l c = 0 := by
  unfold count_end
  have hre : l.reverse.takeWhile (· = c) = [] := by
    cases hr : l.reverse with
    | nil => rfl
    | cons a t =>
        rw [List.takeWhile_cons]
        have ha : a ∈ l := by
          rw [← List.mem_reverse, hr]
          exact List.mem_cons_self a t
        have hne : ¬ (a = c) := fun he => h (he ▸ ha)
        simp [hne]
  rw [hre]
  rfl

theorem replicate_noBS {q : Char} {k : ℕ} (h : q ≠ '\\') :
    '\\' ∉ List.replicate k q := by
  intro hm
  exact h (List.eq_of_mem_replicate hm).symm

theorem noBS_append {a b : List Char} (ha : '\\' ∉ a) (hb : '\\' ∉ b) :
    '\\' ∉ a ++ b := by
  intro hm
  rcases List.mem_append.mp hm with hx | hx
  · exact ha hx
  · exact hb hx

theorem replicate_head? {α : Type} {q : α} {k : ℕ} (h : 1 ≤ k) :
    (List.replicate k q).head? = some q := by
  cases k with
  | zero => omega
  | succ j => rfl

theorem replicate_headD {α : Type} {q d : α} {k : ℕ} (h : 1 ≤ k) :
    (List.replicate k q).headD d = q := by
  cases k with
  | zero => omega
  | succ j => rfl

theorem replicate_one_of_len {α : Type} {q : α} {k : ℕ}
    (h : (List.replicate k q).length = 1) : List.replicate k q = [q] := by
  simp only [List.length_replicate] at h
  subst h
  rfl

theorem replicate_append_one {α : Type} (q : α) (k : ℕ) :
    List.replicate k q ++ [q] = List.replicate (k + 1) q := by
  rw [List.replicate_succ']

theorem piecesDecode_singleton (refs : List Ref) (p : List Char) :
    piecesDecode refs [p] = decodePiece refs p := by
  simp [piecesDecode]

/-- One `str_proc` step on a `'#'`- and backslash-free character preserves
the state invariant, only extends the refs table, and extends the decoded
text (emitted pieces plus in-flight state) by exactly the consumed
character. -/
theorem str_proc_step_inv (selfSkips : Finset ℕ) (ln : ℕ) (st : SPSt) (c : Char)
    (hhash : c ≠ '#') (hbs : c ≠ '\\') (hok : SPOK st) (st' : SPSt)
    (h : str_proc_step selfSkips ln st c = .ok st') :
    SPOK st' ∧ st.refs <+: st'.refs ∧
    piecesDecode st'.refs st'.out ++ pendingText st'.found st'.hold =
      piecesDecode st'.refs st.out ++ pendingText st.found st.hold ++ [c] := by
  obtain ⟨refs, skips, out, found, hold⟩ := st
  obtain ⟨hpieces, hfound_ok, hnot_both, hhold_ok, hno_comment⟩ := hok
  cases hold with
  | some hs =>
    cases hs with
    | comment contents => exact absurd rfl (hno_comment contents)
    | strg contents start stop =>
      have hfoundn : found = none := by
        rcases hnot_both with hf | hh
        · exact hf
        · exact absurd hh (by simp)
      subst hfoundn
      obtain ⟨q, hq, hstart, hnobs, hstop⟩ := hhold_ok contents start stop rfl
      cases stop with
      | some sp =>
        obtain ⟨hstart3, j, hj, hsp⟩ := hstop sp rfl
        simp only [str_proc_step] at h
        rw [if_neg hbs] at h
        by_cases hc1 : start.head? = some c
        · rw [if_pos hc1] at h
          injection h with h2
          subst h2
          have hcq : c = q := by
            rw [hstart3] at hc1
            exact (Option.some_injective _ hc1).symm
          refine ⟨⟨hpieces, ?_, Or.inl rfl, ?_, ?_⟩, List.prefix_refl _, ?_⟩
          · intro f hf
            cases hf
          · intro contents' start' stop' hh
            injection hh with hh
            injection hh with e1 e2 e3
            subst e1; subst e2; subst e3
            refine ⟨q, hq, Or.inr hstart3, hnobs, ?_⟩
            intro sp' hsp'
            injection hsp' with hsp'
            subst hsp'
            refine ⟨hstart3, j + 1, by omega, ?_⟩
            rw [hsp, hcq, replicate_append_one]
          · intro contents' hh
            injection hh with hh
            cases hh
          · simp [pendingText, List.append_assoc]
        · rw [if_neg hc1] at h
          by_cases hlen : start.length < sp.length
          · rw [if_pos hlen] at h
            exact absurd h (by simp [throw, throwThe, MonadExceptOf.throw])
          · rw [if_neg hlen] at h
            by_cases hspstart : sp = start
            · rw [if_pos hspstart] at h
              rw [hstart3] at h
              simp only [List.headD_cons] at h
              injection h with h2
              subst h2
              obtain ⟨hdata, hpre, hget⟩ :=
                wrap_str_marker refs (String.mk contents) q true
              have hpieces' : ∀ p ∈ out ++
                  [(wrap_str refs (String.mk contents) q true).2.data],
                  PieceOK (wrap_str refs (String.mk contents) q true).1 p := by
                intro p hp
                rcases List.mem_append.mp hp with holdp | hnew
                · exact (PieceOK_mono hpre (hpieces p holdp)).1
                · rcases List.mem_singleton.mp hnew with rfl
                  rw [hdata]
                  exact (marker_pieceOK _ _ _ _ _ hget).1
              obtain ⟨hok', hrefs', hskips', hdec'⟩ :=
                str_proc_scan_inv (wrap_str refs (String.mk contents) q true).1 skips
                  (out ++ [(wrap_str refs (String.mk contents) q true).2.data]) c
                  hhash hbs hpieces'
              refine ⟨hok', ?_, ?_⟩
              · rw [hrefs']
                exact hpre
              · rw [hrefs', hdec', piecesDecode_append, piecesDecode_singleton, hdata,
                  (marker_pieceOK _ _ _ _ _ hget).2,
                  piecesDecode_mono hpre out hpieces, hspstart, hstart3]
                simp [pendingText, renderStrRef, List.append_assoc, List.replicate]
            · rw [if_neg hspstart] at h
              by_cases hcn : c = '\n'
              · rw [if_pos hcn] at h
                have hlen1 : ¬ start.length = 1 := by
                  rw [hstart3]
                  simp
                rw [if_neg hlen1] at h
                cases haddskip : addskip skips (adjust selfSkips ln) with
                | error e =>
                    rw [haddskip] at h
                    exact absurd h (by simp [bind, Except.bind])
                | ok skips' =>
                    rw [haddskip] at h
                    simp only [bind, Except.bind] at h
                    injection h with h2
                    subst h2
                    refine ⟨⟨hpieces, ?_, Or.inl rfl, ?_, ?_⟩, List.prefix_refl _, ?_⟩
                    · intro f hf
                      cases hf
                    · intro contents' start' stop' hh
                      injection hh with hh
                      injection hh with e1 e2 e3
                      subst e1; subst e2; subst e3
                      refine ⟨q, hq, Or.inr hstart3, ?_, ?_⟩
                      · refine noBS_append (noBS_append hnobs ?_) ?_
                        · rw [hsp]
                          exact replicate_noBS (holds_ne_bs hq)
                        · intro hm
                          rcases List.mem_singleton.mp hm with rfl
                          exact hbs rfl
                      · intro sp' hsp'
                        cases hsp'
                    · intro contents' hh
                      injection hh with hh
                      cases hh
                    · simp [pendingText, List.append_assoc]
              · rw [if_neg hcn] at h
                injection h with h2
                subst h2
                refine ⟨⟨hpieces, ?_, Or.inl rfl, ?_, ?_⟩, List.prefix_refl _, ?_⟩
                · intro f hf
                  cases hf
                · intro contents' start' stop' hh
                  injection hh with hh
                  injection hh with e1 e2 e3
                  subst e1; subst e2; subst e3
                  refine ⟨q, hq, Or.inr hstart3, ?_, ?_⟩
                  · refine noBS_append (noBS_append hnobs ?_) ?_
                    · rw [hsp]
                      exact replicate_noBS (holds_ne_bs hq)
                    · intro hm
                      rcases List.mem_singleton.mp hm with rfl
                      exact hbs rfl
                  · intro sp' hsp'
                    cases hsp'
                · intro contents' hh
                  injection hh with hh
                  cases hh
                · simp [pendingText, List.append_assoc]
      | none =>
        simp only [str_proc_step] at h
        have hce : ¬ count_end contents '\\' % 2 = 1 := by
          rw [count_end_zero hnobs]
          omega
        rw [if_neg hce] at h
        by_cases hstarteq : start = [c]
        · rw [if_pos hstarteq] at h
          have hq1 : start = [q] ∧ c = q := by
            rcases hstart with h' | h'
            · rw [h'] at hstarteq
              injection hstarteq with e1 _
              exact ⟨h', e1.symm⟩
            · rw [h'] at hstarteq
              injection hstarteq with e1 e2
              cases e2
          obtain ⟨hq1s, hcq⟩ := hq1
          rw [hq1s] at h
          simp only [List.headD_cons] at h
          injection h with h2
          subst h2
          obtain ⟨hdata, hpre, hget⟩ :=
            wrap_str_marker refs (String.mk contents) q false
          refine ⟨⟨?_, ?_, Or.inl rfl, ?_, ?_⟩, hpre, ?_⟩
          · intro p hp
            rcases List.mem_append.mp hp with holdp | hnew
            · exact (PieceOK_mono hpre (hpieces p holdp)).1
            · rcases List.mem_singleton.mp hnew with rfl
              rw [hdata]
              exact (marker_pieceOK _ _ _ _ _ hget).1
          · intro f hf
            cases hf
          · intro contents' start' stop' hh
            cases hh
          · intro contents' hh
            cases hh
          · rw [piecesDecode_append, piecesDecode_singleton, hdata,
              (marker_pieceOK _ _ _ _ _ hget).2,
              piecesDecode_mono hpre out hpieces, hq1s, hcq]
            simp [pendingText, renderStrRef, List.append_assoc]
        · rw [if_neg hstarteq] at h
          by_cases hc1 : start.head? = some c
          · rw [if_pos hc1] at h
            injection h with h2
            subst h2
            have hcq : c = q := by
              rcases hstart with h' | h' <;>
                · rw [h'] at hc1
                  exact (Option.some_injective _ hc1).symm
            have hstart3 : start = [q, q, q] := by
              rcases hstart with h' | h'
              · rw [h', hcq] at hstarteq
                exact absurd rfl hstarteq
              · exact h'
            refine ⟨⟨hpieces, ?_, Or.inl rfl, ?_, ?_⟩, List.prefix_refl _, ?_⟩
            · intro f hf
              cases hf
            · intro contents' start' stop' hh
              injection hh with hh
              injection hh with e1 e2 e3
              subst e1; subst e2; subst e3
              refine ⟨q, hq, Or.inr hstart3, hnobs, ?_⟩
              intro sp' hsp'
              injection hsp' with hsp'
              subst hsp'
              exact ⟨hstart3, 1, le_refl 1, by rw [hcq]; rfl⟩
            · intro contents' hh
              injection hh with hh
              cases hh
            · simp [pendingText, List.append_assoc]
          · rw [if_neg hc1] at h
            by_cases hcn : c = '\n'
            · rw [if_pos hcn] at h
              rcases hstart with hstart1 | hstart3
              · rw [hstart1] at h
                rw [if_pos (show ([q] : List Char).length = 1 from rfl)] at h
                exact absurd h (by simp [throw, throwThe, MonadExceptOf.throw])
              · have hlen1 : ¬ start.length = 1 := by
                  rw [hstart3]
                  simp
                rw [if_neg hlen1] at h
                cases haddskip : addskip skips (adjust selfSkips ln) with
                | error e =>
                    rw [haddskip] at h
                    exact absurd h (by simp [bind, Except.bind])
                | ok skips' =>
                    rw [haddskip] at h
                    simp only [bind, Except.bind] at h
                    injection h with h2
                    subst h2
                    refine ⟨⟨hpieces, ?_, Or.inl rfl, ?_, ?_⟩, List.prefix_refl _, ?_⟩
                    · intro f hf
                      cases hf
                    · intro contents' start' stop' hh
                      injection hh with hh
                      injection hh with e1 e2 e3
                      subst e1; subst e2; subst e3
                      refine ⟨q, hq, Or.inr hstart3, ?_, ?_⟩
                      · refine noBS_append hnobs ?_
                        intro hm
                        rcases List.mem_singleton.mp hm with rfl
                        exact hbs rfl
                      · intro sp' hsp'
                        cases hsp'
                    · intro contents' hh
                      injection hh with hh
                      cases hh
                    · simp [pendingText, List.append_assoc]
            · rw [if_neg hcn] at h
              injection h with h2
              subst h2
              refine ⟨⟨hpieces, ?_, Or.inl rfl, ?_, ?_⟩, List.prefix_refl _, ?_⟩
              · intro f hf
                cases hf
              · intro contents' start' stop' hh
                injection hh with hh
                injection hh with e1 e2 e3
                subst e1; subst e2; subst e3
                refine ⟨q, hq, hstart, ?_, ?_⟩
                · refine noBS_append hnobs ?_
                  intro hm
                  rcases List.mem_singleton.mp hm with rfl
                  exact hbs rfl
                · intro sp' hsp'
                  cases hsp'
              · intro contents' hh
                injection hh with hh
                cases hh
              · simp [pendingText, List.append_assoc]
  | none =>
    cases found with
    | some f =>
      obtain ⟨q, k, hq, hk, hf⟩ := hfound_ok f rfl
      simp only [str_proc_step] at h
      by_cases hc1 : f.head? = some c
      · rw [if_pos hc1] at h
        injection h with h2
        subst h2
        have hcq : c = q := by
          rw [hf, replicate_head? hk] at hc1
          exact (Option.some_injective _ hc1).symm
        refine ⟨⟨hpieces, ?_, Or.inr rfl, ?_, ?_⟩, List.prefix_refl _, ?_⟩
        · intro f' hf'
          injection hf' with hf'
          subst hf'
          exact ⟨q, k + 1, hq, by omega, by rw [hf, hcq, replicate_append_one]⟩
        · intro contents' start' stop' hh
          cases hh
        · intro contents' hh
          cases hh
        · simp [pendingText, List.append_assoc]
      · rw [if_neg hc1] at h
        by_cases hlen1 : f.length = 1
        · rw [if_pos hlen1] at h
          by_cases hcn : c = '\n'
          · rw [if_pos hcn] at h
            exact absurd h (by simp [throw, throwThe, MonadExceptOf.throw])
          · rw [if_neg hcn] at h
            injection h with h2
            subst h2
            have hfq : f = [q] := by
              rw [hf] at hlen1 ⊢
              exact replicate_one_of_len hlen1
            refine ⟨⟨hpieces, ?_, Or.inl rfl, ?_, ?_⟩, List.prefix_refl _, ?_⟩
            · intro f' hf'
              cases hf'
            · intro contents' start' stop' hh
              injection hh with hh
              injection hh with e1 e2 e3
              subst e1; subst e2; subst e3
              refine ⟨q, hq, Or.inl hfq, ?_, ?_⟩
              · intro hm
                rcases List.mem_singleton.mp hm with rfl
                exact hbs rfl
              · intro sp' hsp'
                cases hsp'
            · intro contents' hh
              injection hh with hh
              cases hh
            · simp [pendingText, List.append_assoc]
        · rw [if_neg hlen1] at h
          by_cases hlen2 : f.length = 2
          · rw [if_pos hlen2] at h
            have hk2 : k = 2 := by
              rw [hf] at hlen2
              simpa using hlen2
            subst hk2
            have hf2 : f = [q, q] := by
              rw [hf]
              rfl
            rw [hf2] at h
            simp only [List.headD_cons] at h
            injection h with h2
            subst h2
            obtain ⟨hdata, hpre, hget⟩ := wrap_str_marker refs "" q false
            have hpieces' : ∀ p ∈ out ++ [(wrap_str refs "" q false).2.data],
                PieceOK (wrap_str refs "" q false).1 p := by
              intro p hp
              rcases List.mem_append.mp hp with holdp | hnew
              · exact (PieceOK_mono hpre (hpieces p holdp)).1
              · rcases List.mem_singleton.mp hnew with rfl
                rw [hdata]
                exact (marker_pieceOK _ _ _ _ _ hget).1
            obtain ⟨hok', hrefs', hskips', hdec'⟩ :=
              str_proc_scan_inv (wrap_str refs "" q false).1 skips
                (out ++ [(wrap_str refs "" q false).2.data]) c hhash hbs hpieces'
            refine ⟨hok', ?_, ?_⟩
            · rw [hrefs']
              exact hpre
            · rw [hrefs', hdec', piecesDecode_append, piecesDecode_singleton, hdata,
                (marker_pieceOK _ _ _ _ _ hget).2,
                piecesDecode_mono hpre out hpieces, hf2]
              simp [pendingText, renderStrRef, List.append_assoc]
          · rw [if_neg hlen2] at h
            by_cases hlen3 : f.length = 3
            · rw [if_pos hlen3] at h
              have hf3 : f = [q, q, q] := by
                have hk3 : k = 3 := by
                  rw [hf] at hlen3
                  simpa using hlen3
                rw [hf, hk3]
                rfl
              by_cases hcn : c = '\n'
              · rw [if_pos hcn] at h
                cases haddskip : addskip skips (adjust selfSkips ln) with
                | error e =>
                    rw [haddskip] at h
                    exact absurd h (by simp [bind, Except.bind])
                | ok skips' =>
                    rw [haddskip] at h
                    simp only [bind, Except.bind] at h
                    injection h with h2
                    subst h2
                    refine ⟨⟨hpieces, ?_, Or.inl rfl, ?_, ?_⟩, List.prefix_refl _, ?_⟩
                    · intro f' hf'
                      cases hf'
                    · intro contents' start' stop' hh
                      injection hh with hh
                      injection hh with e1 e2 e3
                      subst e1; subst e2; subst e3
                      refine ⟨q, hq, Or.inr hf3, ?_, ?_⟩
                      · intro hm
                        rcases List.mem_singleton.mp hm with rfl
                        exact hbs rfl
                      · intro sp' hsp'
                        cases hsp'
                    · intro contents' hh
                      injection hh with hh
                      cases hh
                    · simp [pendingText, List.append_assoc]
              · rw [if_neg hcn] at h
                injection h with h2
                subst h2
                refine ⟨⟨hpieces, ?_, Or.inl rfl, ?_, ?_⟩, List.prefix_refl _, ?_⟩
                · intro f' hf'
                  cases hf'
                · intro contents' start' stop' hh
                  injection hh with hh
                  injection hh with e1 e2 e3
                  subst e1; subst e2; subst e3
                  refine ⟨q, hq, Or.inr hf3, ?_, ?_⟩
                  · intro hm
                    rcases List.mem_singleton.mp hm with rfl
                    exact hbs rfl
                  · intro sp' hsp'
                    cases hsp'
                · intro contents' hh
                  injection hh with hh
                  cases hh
                · simp [pendingText, List.append_assoc]
            · rw [if_neg hlen3] at h
              exact absurd h (by simp [throw, throwThe, MonadExceptOf.throw])
    | none =>
      simp only [str_proc_step] at h
      injection h with h2
      subst h2
      obtain ⟨hok', hrefs', hskips', hdec'⟩ :=
        str_proc_scan_inv refs skips out c hhash hbs hpieces
      refine ⟨hok', ?_, ?_⟩
      · rw [hrefs']
      · rw [hrefs', hdec']
        simp [pendingText]

/-- Invariant through the whole `str_proc` loop: a successful run on `'#'`-
and backslash-free remaining input ends with no open string or comment, only
extends the refs table, and the decoded final output is the decoded starting
output plus the pending state text, the remaining input and the virtual
trailing newline. -/
theorem str_proc_go_inv (selfSkips : Finset ℕ) :
    ∀ (l : List Char), (∀ c ∈ l, c ≠ '#' ∧ c ≠ '\\') →
    ∀ (ln : ℕ) (st : SPSt), SPOK st →
    ∀ st', str_proc_go selfSkips l ln st = .ok st' →
    SPOK st' ∧ st.refs <+: st'.refs ∧ st'.found = none ∧ st'.hold = none ∧
    piecesDecode st'.refs st'.out =
      piecesDecode st'.refs st.out ++ pendingText st.found st.hold ++ l ++ ['\n']
  | [], _, ln, st, hok, st', h => by
      rw [str_proc_go] at h
      cases hstep : str_proc_step selfSkips ln st '\n' with
      | error e =>
          rw [hstep] at h
          exact absurd h (by simp [bind, Except.bind])
      | ok st'' =>
          rw [hstep] at h
          simp only [bind, Except.bind] at h
          obtain ⟨hok'', hpre'', hdec''⟩ :=
            str_proc_step_inv selfSkips ln st '\n' (by decide) (by decide) hok st'' hstep
          by_cases hend : st''.hold = none ∧ st''.found = none
          · rw [if_pos hend] at h
            injection h with h2
            subst h2
            refine ⟨hok'', hpre'', hend.2, hend.1, ?_⟩
            have key := hdec''
            rw [hend.1, hend.2] at key
            simp only [pendingText, List.append_nil] at key
            rw [key]
            simp [pendingText, List.append_assoc]
          · rw [if_neg hend] at h
            exact absurd h (by simp [throw, throwThe, MonadExceptOf.throw])
  | c :: cs, hl, ln, st, hok, st', h => by
      have hc : c ≠ '#' ∧ c ≠ '\\' := hl c (by simp)
      have hcs : ∀ d ∈ cs, d ≠ '#' ∧ d ≠ '\\' := fun d hd => hl d (by simp [hd])
      rw [str_proc_go] at h
      cases hstep : str_proc_step selfSkips ln st c with
      | error e =>
          rw [hstep] at h
          exact absurd h (by simp [bind, Except.bind])
      | ok st'' =>
          rw [hstep] at h
          simp only [bind, Except.bind] at h
          obtain ⟨hok'', hpre'', hdec''⟩ :=
            str_proc_step_inv selfSkips ln st c hc.1 hc.2 hok st'' hstep
          obtain ⟨hokF, hpreF, hfoundF, hholdF, hdecF⟩ :=
            str_proc_go_inv selfSkips cs hcs (if c = '\n' then ln + 1 else ln) st'' hok'' st' h
          refine ⟨hokF, hpre''.trans hpreF, hfoundF, hholdF, ?_⟩
          have hmono1 : piecesDecode st'.refs st''.out = piecesDecode st''.refs st''.out :=
            piecesDecode_mono hpreF st''.out hok''.pieces
          have hmono3 : piecesDecode st'.refs st.out = piecesDecode st.refs st.out :=
            piecesDecode_mono (hpre''.trans hpreF) st.out hok.pieces
          have key := hdec''
          rw [piecesDecode_mono hpre'' st.out hok.pieces] at key
          rw [hdecF, hmono1, hmono3]
          calc piecesDecode st''.refs st''.out ++ pendingText st''.found st''.hold ++
                cs ++ ['\n']
              = (piecesDecode st''.refs st''.out ++ pendingText st''.found st''.hold) ++
                (cs ++ ['\n']) := by simp [List.append_assoc]
            _ = (piecesDecode st.refs st.out ++ pendingText st.found st.hold ++ [c]) ++
                (cs ++ ['\n']) := by rw [key]
            _ = piecesDecode st.refs st.out ++ pendingText st.found st.hold ++
                (c :: cs) ++ ['\n'] := by simp [List.append_assoc]

/-- The initial `str_proc` state is well-formed. -/
theorem SPOK_init (refs : List Ref) (skips : Finset ℕ) :
    SPOK ⟨refs, skips, [], none, none⟩ := by
  refine ⟨?_, ?_, Or.inl rfl, ?_, ?_⟩
  · intro p hp
    exact absurd hp (List.not_mem_nil p)
  · intro f hf
    cases hf
  · intro contents start stop hh
    cases hh
  · intro contents hh
    cases hh

/-- On `'#'`- and backslash-free input, a successful `str_proc` run returns
a join of well-formed pieces whose decoding is exactly the input plus the
appended newline. -/
theorem str_proc_noBS (input : String) (hin : ∀ c ∈ input.data, c ≠ '#' ∧ c ≠ '\\')
    (selfSkips : Finset ℕ) (refs0 refsF : List Ref) (skipsF : Finset ℕ) (out : String)
    (h : str_proc selfSkips refs0 input = .ok (refsF, skipsF, out)) :
    ∃ pieces : List (List Char),
      out = String.mk pieces.flatten ∧ (∀ p ∈ pieces, PieceOK refsF p) ∧
      refs0 <+: refsF ∧
      piecesDecode refsF pieces = input.data ++ ['\n'] := by
  unfold str_proc at h
  cases hgo : str_proc_go selfSkips input.data 1 ⟨refs0, selfSkips, [], none, none⟩ with
  | error e =>
      rw [hgo] at h
      exact absurd h (by simp [bind, Except.bind])
  | ok stF =>
      rw [hgo] at h
      simp only [bind, Except.bind] at h
      injection h with h2
      obtain ⟨hokF, hpreF, _, _, hdecF⟩ :=
        str_proc_go_inv selfSkips input.data hin 1 ⟨refs0, selfSkips, [], none, none⟩
          (SPOK_init refs0 selfSkips) stF hgo
      have hrefs : stF.refs = refsF := congrArg Prod.fst h2
      have hout : String.mk stF.out.flatten = out :=
        congrArg (fun p => p.2.2) h2
      refine ⟨stF.out, ?_, ?_, ?_, ?_⟩
      · rw [← hout]
      · rw [← hrefs]
        exact hokF.pieces
      · rw [← hrefs]
        exact hpreF
      · rw [← hrefs, hdecF]
        simp [pendingText, piecesDecode_nil]

/-- **C3 (amended round trip).** For input with no `'#'` and no backslash
that the string processor accepts, the passthrough stage is the identity and
the re-expansion returns exactly the input plus the single newline appended
by `str_proc`'s virtual final character. -/
theorem marker_roundtrip_noBS (input : String)
    (hin : ∀ c ∈ input.data, c ≠ '#' ∧ c ≠ '\\')
    (res : String) (h : marker_roundtrip input = .ok res) :
    res = input ++ "\n" := by
  unfold marker_roundtrip at h
  cases hsp : str_proc ∅ [] input with
  | error e =>
      rw [hsp] at h
      exact absurd h (by simp [bind, Except.bind])
  | ok triple =>
      obtain ⟨refs1, skips1, s2⟩ := triple
      rw [hsp] at h
      simp only [bind, Except.bind] at h
      obtain ⟨pieces, hs2, hpieces, hpre, hdec⟩ :=
        str_proc_noBS input hin ∅ [] refs1 skips1 s2 hsp
      have hnobs2 : '\\' ∉ s2.data := by
        rw [hs2]
        exact flatten_noBS pieces hpieces
      rw [passthrough_proc_id skips1 refs1 s2 hnobs2] at h
      simp only [] at h
      unfold repl_proc at h
      rw [passthrough_repl_id refs1 s2 hnobs2] at h
      simp only [bind, Except.bind] at h
      rw [hs2, str_repl_pieces refs1 pieces hpieces] at h
      injection h with h2
      rw [← h2, hdec]
      obtain ⟨d⟩ := input
      rfl

/-- **C3 (claim counterexample).** The S2→S3→S8 round trip is not the
identity up to line-ending normalization: a mid-line comment gains an extra
space when re-expanded (and every input gains a trailing newline), and a
passthrough `\(...)` is replaced by its bare contents, losing characters. -/
theorem marker_roundtrip_claim_counterexample :
    marker_roundtrip "x = 1 # c" = .ok "x = 1  # c\n" ∧
    "x = 1  # c\n" ≠ "x = 1 # c" ∧
    ("x = 1  # c\n").length = ("x = 1 # c").length + 2 ∧
    marker_roundtrip "\\(1)" = .ok "1\n" ∧
    ("1\n").length < ("\\(1)").length ∧
    marker_roundtrip "abc" = .ok "abc\n" ∧
    "abc\n" ≠ "abc" :=
  ⟨rfl, by decide, by decide, rfl, by decide, rfl, by decide⟩

/-- Closed instance of `marker_roundtrip_noBS` at a concrete program:
both hypotheses are discharged by evaluation. -/
theorem marker_roundtrip_noBS_witness :
    (∀ c ∈ ("y = 'ab' + \"cd\"" : String).data, c ≠ '#' ∧ c ≠ '\\') ∧
    ("y = 'ab' + \"cd\"\n" : String) = "y = 'ab' + \"cd\"" ++ "\n" :=
  ⟨by decide, marker_roundtrip_noBS "y = 'ab' + \"cd\"" (by decide)
    "y = 'ab' + \"cd\"\n" rfl⟩

end Coconut
